import Mathlib

set_option maxRecDepth 8000

/-!
Verification of the quote-automation extraction normalizer
(`src/lib/quoteSchema.ts`) together with the render-side defaulting helper
`prepareQuoteForDocument` (`src/app/page.tsx`).

JavaScript numbers are modelled as exact rationals together with explicit
markers for the non-finite values (`NaN`, `Infinity`, `-Infinity`); machine
rounding of doubles is outside the model.  JSON-like runtime values are
modelled by the inductive `JSVal`; a missing object key reads as
`JSVal.undef`, matching JavaScript property access.
-/

/-- A JavaScript number: an exact rational or one of the non-finite values. -/
inductive JSNum where
  | finite (q : ℚ)
  | nan
  | inf
  | ninf
deriving DecidableEq, Repr

/-- `Number.isFinite`. -/
def JSNum.isFinite : JSNum → Bool
  | .finite _ => true
  | _ => false

/-- `Number.isNaN`. -/
def JSNum.isNaN : JSNum → Bool
  | .nan => true
  | _ => false

/-- The IEEE-754 binary64 overflow threshold `2^1024 - 2^970`: a real
result whose magnitude reaches this value rounds to `±Infinity` under
round-to-nearest (the largest finite double is `2^1024 - 2^971`; the
midpoint to the next boundary `2^1024` rounds up).  Built through `mkRat`
over `ℕ` powers so that it evaluates by kernel reduction;
`overflowThreshold_eq` below gives the textbook form. -/
def overflowThreshold : ℚ :=
  mkRat (((2 ^ 1024 - 2 ^ 970 : ℕ) : ℤ)) 1

/-- JavaScript multiplication of two numbers as `fillMissingTotals` uses
it (both operands are finite there; non-finite operands are mapped to
`NaN`).  Finite doubles multiply exactly in the rational model except
that a product whose magnitude reaches the binary64 overflow threshold
becomes `±Infinity`, exactly as in JS.  The finite product is built
through `mkRat` so that it evaluates by kernel reduction;
`JSNum.mul_finite` below shows the in-range case is ordinary rational
multiplication. -/
def JSNum.mul : JSNum → JSNum → JSNum
  | .finite a, .finite b =>
      let p : ℚ := mkRat (a.num * b.num) (a.den * b.den)
      if overflowThreshold ≤ p then .inf
      else if p ≤ -overflowThreshold then .ninf
      else .finite p
  | _, _ => .nan

/-- `x.toFixed(2)` followed by `Number(...)` on a finite value: round to the
nearest multiple of 1/100, ties toward the larger candidate (ECMA-262
`toFixed` picks the larger `n` on a tie).  Written through `mkRat` so that it
evaluates by kernel reduction; `toFixed2_eq_floor` below shows it equals
`⌊q * 100 + 1/2⌋ / 100`. -/
def toFixed2 (q : ℚ) : ℚ :=
  mkRat (Rat.floor (mkRat (q.num * 200 + q.den) (q.den * 2))) 100

/-- `Number(x.toFixed(2))` on a JavaScript number; non-finite values map to
themselves (`NaN.toFixed(2) = "NaN"`, `Number("NaN") = NaN`, and likewise for
the infinities). -/
def JSNum.toFixed2Num : JSNum → JSNum
  | .finite q => .finite (toFixed2 q)
  | n => n

/-- A JSON-like JavaScript runtime value. -/
inductive JSVal where
  | num (n : JSNum)
  | str (s : String)
  | null
  | undef
  | bool (b : Bool)
  | arr (xs : List JSVal)
  | obj (fields : List (String × JSVal))

/- ---------------------------------------------------------------------
String helpers used by the normalizer.
--------------------------------------------------------------------- -/

/-- Characters kept by `value.replace(/[^0-9,.-]/g, "")`. -/
def isNumChar (c : Char) : Bool :=
  c.isDigit || c = ',' || c = '.' || c = '-'

/-- `value.replace(/[^0-9,.-]/g, "").trim()` (the trim is a no-op because the
replacement already removed every whitespace character). -/
def cleanChars (s : String) : List Char :=
  s.data.filter isNumChar

/-- `String.prototype.lastIndexOf` for a single character, returning `-1`
when the character does not occur. -/
def lastIndexOf (cs : List Char) (c : Char) : Int :=
  match cs.reverse.findIdx? (fun d => d = c) with
  | none => -1
  | some i => (cs.length : Int) - 1 - i

/-- `String.prototype.trim`: drop whitespace from both ends. -/
def trimList (cs : List Char) : List Char :=
  List.rdropWhile Char.isWhitespace (List.dropWhile Char.isWhitespace cs)

/-- `String.prototype.trim` on a packed string. -/
def jsTrim (s : String) : String :=
  String.mk (trimList s.data)

/-- Digit run to a natural number (the digits are ASCII). -/
def digitsToNat (cs : List Char) : ℕ :=
  cs.foldl (fun a c => a * 10 + (c.toNat - 48)) 0

/-- `Number(s)` for a string drawn from the characters `0-9`, `.`, `-`
(the only characters that can survive the cleaning step): an optional
leading minus sign, then digits with at most one decimal point and at
least one digit; anything else parses to `NaN`. -/
def jsStrToNum (cs : List Char) : JSNum :=
  let signAndBody : Bool × List Char :=
    match cs with
    | '-' :: t => (true, t)
    | _ => (false, cs)
  let neg := signAndBody.1
  let body := signAndBody.2
  let intPart := body.takeWhile (fun c => c ≠ '.')
  let rest := body.dropWhile (fun c => c ≠ '.')
  let sign : ℤ := if neg then -1 else 1
  let value : Option ℚ :=
    match rest with
    | [] =>
        if intPart ≠ [] ∧ intPart.all Char.isDigit then
          some (mkRat (sign * digitsToNat intPart) 1)
        else none
    | _ :: frac =>
        if (intPart ≠ [] ∨ frac ≠ []) ∧ intPart.all Char.isDigit ∧ frac.all Char.isDigit then
          some (mkRat (sign * (digitsToNat intPart * 10 ^ frac.length + digitsToNat frac)) (10 ^ frac.length))
        else none
  match value with
  | none => .nan
  | some q => .finite q

/- ---------------------------------------------------------------------
`normalizeNumber` (src/lib/quoteSchema.ts, lines 198-225).
--------------------------------------------------------------------- -/

/-- `normalizeNumber(value)`: `null`/`undefined` resolve to `null` (modelled
as `none`); numbers are kept when finite; strings are stripped to the
numeric characters, disambiguated by the position of the last comma versus
the last period, and parsed; every other runtime type resolves to `null`. -/
def normalizeNumber : JSVal → Option JSNum
  | .null => none
  | .undef => none
  | .num n => if n.isFinite then some n else none
  | .str s =>
      let cleaned := cleanChars s
      if cleaned.isEmpty then none
      else
        let lastComma := lastIndexOf cleaned ','
        let lastDot := lastIndexOf cleaned '.'
        let normalised :=
          if lastComma > -1 ∧ lastComma > lastDot then
            (cleaned.filter (fun c => c ≠ '.')).map (fun c => if c = ',' then '.' else c)
          else
            cleaned.filter (fun c => c ≠ ',')
        let parsed := jsStrToNum normalised
        if parsed.isFinite then some parsed else none
  | .bool _ => none
  | .arr _ => none
  | .obj _ => none

example : normalizeNumber (.str "1.234") = some (.finite (mkRat 1234 1000)) := by decide
example : normalizeNumber (.str "1.234,56") = some (.finite (mkRat 123456 100)) := by decide
example : normalizeNumber (.str "2,500.75") = some (.finite (mkRat 250075 100)) := by decide
example : normalizeNumber (.str "$1,299.95") = some (.finite (mkRat 129995 100)) := by decide
example : normalizeNumber (.str "-1.234,56") = some (.finite (mkRat (-123456) 100)) := by decide
example : normalizeNumber (.str "abc") = none := by decide
example : normalizeNumber .null = none := by decide
example : normalizeNumber .undef = none := by decide
example : toFixed2 (mkRat 7 1) = mkRat 7 1 := by decide
example : toFixed2 (mkRat 10555 1000) = mkRat 1056 100 := by decide
example : JSNum.mul (.finite (mkRat 2 1)) (.finite (mkRat 7 2)) = .finite (mkRat 7 1) := by decide

example : JSNum.mul (.finite (mkRat ((10 ^ 200 : ℕ) : ℤ) 1)) (.finite (mkRat ((10 ^ 200 : ℕ) : ℤ) 1))
    = .inf := by
  decide

example : JSNum.mul (.finite (mkRat (-((10 ^ 200 : ℕ) : ℤ)) 1)) (.finite (mkRat ((10 ^ 200 : ℕ) : ℤ) 1))
    = .ninf := by
  decide

/- ---------------------------------------------------------------------
The parsed data model (src/types/quote.ts, quoting variant) after the zod
transforms of src/lib/quoteSchema.ts have run.  `none` stands for an
absent/undefined optional field (for the item price fields, for `null`,
which is what the item transform stores for a missing number).
--------------------------------------------------------------------- -/

/-- A supplier/customer contact block after parsing (`contactSchema`). -/
structure Contact where
  name : Option String
  companyName : Option String
  address : Option String
  phone : Option String
  email : Option String
  taxId : Option String
deriving DecidableEq, Repr

/-- Top-level metadata after parsing (quote-variant `quoteExtractionSchema`). -/
structure QuoteMetadata where
  supplier : Option Contact
  customer : Option Contact
  quoteNumber : Option String
  issueDate : Option String
  expirationDate : Option String
  currency : Option String
  paymentTerms : Option String
  deliveryTerms : Option String
  projectName : Option String
  additionalNotes : Option String
deriving DecidableEq, Repr

/-- One line item after parsing (`quoteItemSchema`).  `itemNumber` is passed
through the schema verbatim (no trimming); `null` and `undefined` are
collapsed to `none`, which is what `fillMissingTotals`'s
`item.itemNumber ?? undefined` does downstream. -/
structure QuoteItem where
  itemNumber : Option String
  description : String
  quantity : Option JSNum
  unitPrice : Option JSNum
  totalPrice : Option JSNum
  notes : Option String
deriving DecidableEq, Repr

/-- The totals block (`quoteTotalsSchema`). -/
structure QuoteTotals where
  subtotal : Option JSNum
  taxes : Option JSNum
  shipping : Option JSNum
  discount : Option JSNum
  total : Option JSNum
deriving DecidableEq, Repr

/-- A fully parsed and normalized extraction (`QuoteExtraction`). -/
structure QuoteExtraction where
  fullText : String
  metadata : QuoteMetadata
  items : List QuoteItem
  totals : QuoteTotals
  remarks : Option String
deriving DecidableEq, Repr

/- ---------------------------------------------------------------------
zod parsing.  A parser returns either a value or the list of issue
messages; object parsing accumulates the issues of all fields in shape
order, exactly as `safeParse` collects its `error.issues`.
--------------------------------------------------------------------- -/

/-- Error-accumulating applicative application for parse results: both
error lists are concatenated, mirroring how zod gathers the issues of all
object fields before failing. -/
def epSeq {α β : Type} (f : Except (List String) (α → β)) (x : Except (List String) α) :
    Except (List String) β :=
  match f, x with
  | .ok g, .ok a => .ok (g a)
  | .error e₁, .error e₂ => .error (e₁ ++ e₂)
  | .error e, .ok _ => .error e
  | .ok _, .error e => .error e

/-- Map over a parse result. -/
def epMap {α β : Type} (f : α → β) (x : Except (List String) α) : Except (List String) β :=
  match x with
  | .ok a => .ok (f a)
  | .error e => .error e

/-- JavaScript property access `obj[key]`: a missing key reads as
`undefined`. -/
def lookupField (fs : List (String × JSVal)) (k : String) : JSVal :=
  match fs.find? (fun p => p.1 == k) with
  | some p => p.2
  | none => JSVal.undef

/-- The runtime type name zod reports in `invalid_type` issues. -/
def jsTypeName : JSVal → String
  | .num _ => "number"
  | .str _ => "string"
  | .null => "null"
  | .undef => "undefined"
  | .bool _ => "boolean"
  | .arr _ => "array"
  | .obj _ => "object"

/-- zod's default `invalid_type` message (`"Required"` when the value is
`undefined`). -/
def expectedMsg (expected : String) (v : JSVal) : String :=
  match v with
  | .undef => "Required"
  | v => "Expected " ++ expected ++ ", received " ++ jsTypeName v

/-- The transform of `optionalString`: trim, then send the empty result to
`undefined`.  This is the spec's `normalizeText`. -/
def normalizeText (s : String) : Option String :=
  let t := jsTrim s
  if 0 < t.length then some t else none

/-- `optionalString` (`z.string().trim().optional().transform(...)`):
`undefined` passes through as absent, a string is trimmed and blanked to
absent, anything else (including `null`) is an `invalid_type` issue. -/
def parseOptionalString (v : JSVal) : Except (List String) (Option String) :=
  match v with
  | .undef => .ok none
  | .str s => .ok (normalizeText s)
  | v => .error [expectedMsg "string" v]

/-- `z.string().min(1, msg)`: a string of length ≥ 1, with `msg` the
`too_small` message. -/
def parseRequiredString (minMsg : String) (v : JSVal) : Except (List String) String :=
  match v with
  | .str s => if 0 < s.length then .ok s else .error [minMsg]
  | v => .error [expectedMsg "string" v]

/-- `itemNumber`'s schema `z.union([z.string(), z.null(), z.undefined()]).optional()`:
the string is kept verbatim, `null`/`undefined` both end up absent after
`fillMissingTotals`'s `?? undefined`; any other type fails the union. -/
def parseItemNumber (v : JSVal) : Except (List String) (Option String) :=
  match v with
  | .undef => .ok none
  | .null => .ok none
  | .str s => .ok (some s)
  | v => .error [expectedMsg "string" v]

/-- `numberLike.optional()` followed by the item transform's `?? null`:
an absent field stays absent, while a present `number | null | string`
member of the union goes through `normalizeNumber`; any other type fails
the union with zod's `invalid_union` message. -/
def parseNumberLike (v : JSVal) : Except (List String) (Option JSNum) :=
  match v with
  | .undef => .ok none
  | .null => .ok (normalizeNumber .null)
  | .num n => .ok (normalizeNumber (.num n))
  | .str s => .ok (normalizeNumber (.str s))
  | _ => .error ["Invalid input"]

/-- `contactSchema` (all-optional text fields) wrapped in `.optional()`. -/
def parseContact (v : JSVal) : Except (List String) (Option Contact) :=
  match v with
  | .undef => .ok none
  | .obj fs =>
      epMap some
        (epSeq (epSeq (epSeq (epSeq (epSeq (epSeq (.ok Contact.mk)
          (parseOptionalString (lookupField fs "name")))
          (parseOptionalString (lookupField fs "companyName")))
          (parseOptionalString (lookupField fs "address")))
          (parseOptionalString (lookupField fs "phone")))
          (parseOptionalString (lookupField fs "email")))
          (parseOptionalString (lookupField fs "taxId")))
  | v => .error [expectedMsg "object" v]

/-- `quoteItemSchema`: object with verbatim `itemNumber`, required
`description` (custom Spanish message), `numberLike` price fields (the
transform collapses a missing number to `null`, here `none`) and
`optionalString` notes.  Issues accumulate in shape order. -/
def parseItem (v : JSVal) : Except (List String) QuoteItem :=
  match v with
  | .obj fs =>
      epSeq (epSeq (epSeq (epSeq (epSeq (epSeq (.ok QuoteItem.mk)
        (parseItemNumber (lookupField fs "itemNumber")))
        (parseRequiredString "La descripcion del item es obligatoria" (lookupField fs "description")))
        (parseNumberLike (lookupField fs "quantity")))
        (parseNumberLike (lookupField fs "unitPrice")))
        (parseNumberLike (lookupField fs "totalPrice")))
        (parseOptionalString (lookupField fs "notes"))
  | v => .error [expectedMsg "object" v]

/-- Element-wise parsing of the item array, accumulating the issues of all
elements. -/
def parseItemList (xs : List JSVal) : Except (List String) (List QuoteItem) :=
  match xs with
  | [] => .ok []
  | v :: rest => epSeq (epSeq (.ok List.cons) (parseItem v)) (parseItemList rest)

/-- `z.array(quoteItemSchema).min(1, "Debes incluir al menos un item")`. -/
def parseItems (v : JSVal) : Except (List String) (List QuoteItem) :=
  match v with
  | .arr [] => .error ["Debes incluir al menos un item"]
  | .arr xs => parseItemList xs
  | v => .error [expectedMsg "array" v]

/-- The body of `normaliseTotals` for one key: run `normalizeNumber` over
the already-parsed `number | null` value, and keep the rounded number only
when it is non-null and not `NaN`. -/
def normTotField (value : Option JSNum) : Option JSNum :=
  let normalised :=
    match value with
    | none => none
    | some n => if n.isFinite then some n else none
  match normalised with
  | some n => if n.isNaN then none else some n.toFixed2Num
  | none => none

/-- `normaliseTotals(totals)` (src/lib/quoteSchema.ts, lines 183-196). -/
def normaliseTotals (t : QuoteTotals) : QuoteTotals :=
  { subtotal := normTotField t.subtotal
    taxes := normTotField t.taxes
    shipping := normTotField t.shipping
    discount := normTotField t.discount
    total := normTotField t.total }

/-- `quoteTotalsSchema.default({})`: an absent totals block parses as the
empty object; an object parses its five `numberLike` fields and then runs
the `normaliseTotals` transform. -/
def parseTotals (v : JSVal) : Except (List String) QuoteTotals :=
  match v with
  | .undef => .ok (normaliseTotals ⟨none, none, none, none, none⟩)
  | .obj fs =>
      epMap normaliseTotals
        (epSeq (epSeq (epSeq (epSeq (epSeq (.ok QuoteTotals.mk)
          (parseNumberLike (lookupField fs "subtotal")))
          (parseNumberLike (lookupField fs "taxes")))
          (parseNumberLike (lookupField fs "shipping")))
          (parseNumberLike (lookupField fs "discount")))
          (parseNumberLike (lookupField fs "total")))
  | v => .error [expectedMsg "object" v]

/-- The metadata object of `quoteExtractionSchema` with `.default({})`:
an absent metadata block parses as the empty object (every field absent). -/
def parseMetadata (v : JSVal) : Except (List String) QuoteMetadata :=
  match v with
  | .undef => .ok ⟨none, none, none, none, none, none, none, none, none, none⟩
  | .obj fs =>
      epSeq (epSeq (epSeq (epSeq (epSeq (epSeq (epSeq (epSeq (epSeq (epSeq (.ok QuoteMetadata.mk)
        (parseContact (lookupField fs "supplier")))
        (parseContact (lookupField fs "customer")))
        (parseOptionalString (lookupField fs "quoteNumber")))
        (parseOptionalString (lookupField fs "issueDate")))
        (parseOptionalString (lookupField fs "expirationDate")))
        (parseOptionalString (lookupField fs "currency")))
        (parseOptionalString (lookupField fs "paymentTerms")))
        (parseOptionalString (lookupField fs "deliveryTerms")))
        (parseOptionalString (lookupField fs "projectName")))
        (parseOptionalString (lookupField fs "additionalNotes"))
  | v => .error [expectedMsg "object" v]

/-- `quoteExtractionSchema.safeParse`: the top level must be an object; the
fields parse in shape order (`fullText`, `metadata`, `items`, `totals`,
`remarks`), accumulating every issue.  The final `.transform` (`totals:
value.totals ?? {}`) is the identity here because `totals` has a default. -/
def parseExtraction (v : JSVal) : Except (List String) QuoteExtraction :=
  match v with
  | .obj fs =>
      epSeq (epSeq (epSeq (epSeq (epSeq (.ok QuoteExtraction.mk)
        (parseRequiredString "String must contain at least 1 character(s)" (lookupField fs "fullText")))
        (parseMetadata (lookupField fs "metadata")))
        (parseItems (lookupField fs "items")))
        (parseTotals (lookupField fs "totals")))
        (parseOptionalString (lookupField fs "remarks"))
  | v => .error [expectedMsg "object" v]

/-- `fillMissingTotals(item)` (src/lib/quoteSchema.ts, lines 169-181):
when `totalPrice` is null while both `quantity` and `unitPrice` are
present, set it to `Number((quantity * unitPrice).toFixed(2))`. -/
def fillMissingTotals (item : QuoteItem) : QuoteItem :=
  let cleanItem : QuoteItem := { item with itemNumber := item.itemNumber, notes := item.notes }
  match cleanItem.totalPrice, cleanItem.quantity, cleanItem.unitPrice with
  | none, some q, some u => { cleanItem with totalPrice := some ((JSNum.mul q u).toFixed2Num) }
  | _, _, _ => cleanItem

/-- `normalizeExtraction(raw)` (src/lib/quoteSchema.ts, lines 154-167):
`safeParse`, throw the `" | "`-joined issue messages on failure, otherwise
rebuild the record with `fillMissingTotals` mapped over the items. -/
def normalizeExtraction (raw : JSVal) : Except String QuoteExtraction :=
  match parseExtraction raw with
  | .error issues => .error (String.intercalate " | " issues)
  | .ok parsed =>
      .ok { fullText := parsed.fullText
            metadata := parsed.metadata
            items := parsed.items.map fillMissingTotals
            totals := parsed.totals
            remarks := parsed.remarks }

/- ---------------------------------------------------------------------
Serialization: `JSON.stringify` of a normalized `QuoteExtraction` followed
by `JSON.parse` (the round trip the render pipeline performs before it
re-validates).  Keys whose value is `undefined` are dropped by
`JSON.stringify`; the item price fields are `number | null` after the item
transform, so an absent price serializes as an explicit `null`.
--------------------------------------------------------------------- -/

/-- An optional string field as `JSON.stringify` emits it: dropped when
absent. -/
def strEntry (k : String) (v : Option String) : List (String × JSVal) :=
  match v with
  | some s => [(k, JSVal.str s)]
  | none => []

/-- An optional number field as `JSON.stringify` emits it: dropped when
absent (used for the totals record, whose absent keys are never set). -/
def numEntry (k : String) (v : Option JSNum) : List (String × JSVal) :=
  match v with
  | some n => [(k, JSVal.num n)]
  | none => []

/-- A `number | null` field as the item transform stores it and
`JSON.stringify` emits it: `null` when absent, and also `null` for a
non-finite number (`JSON.stringify` has no representation for `NaN` or
`±Infinity`). -/
def numOrNullEntry (k : String) (v : Option JSNum) : List (String × JSVal) :=
  match v with
  | some n => [(k, if n.isFinite then JSVal.num n else JSVal.null)]
  | none => [(k, JSVal.null)]

/-- Serialize a contact block. -/
def serializeContact (c : Contact) : JSVal :=
  .obj (strEntry "name" c.name ++ strEntry "companyName" c.companyName ++
        strEntry "address" c.address ++ strEntry "phone" c.phone ++
        strEntry "email" c.email ++ strEntry "taxId" c.taxId)

/-- An optional contact block as `JSON.stringify` emits it. -/
def contactEntry (k : String) (v : Option Contact) : List (String × JSVal) :=
  match v with
  | some c => [(k, serializeContact c)]
  | none => []

/-- Serialize the metadata block. -/
def serializeMetadata (m : QuoteMetadata) : JSVal :=
  .obj (contactEntry "supplier" m.supplier ++ contactEntry "customer" m.customer ++
        strEntry "quoteNumber" m.quoteNumber ++ strEntry "issueDate" m.issueDate ++
        strEntry "expirationDate" m.expirationDate ++ strEntry "currency" m.currency ++
        strEntry "paymentTerms" m.paymentTerms ++ strEntry "deliveryTerms" m.deliveryTerms ++
        strEntry "projectName" m.projectName ++ strEntry "additionalNotes" m.additionalNotes)

/-- Serialize one item. -/
def serializeItem (it : QuoteItem) : JSVal :=
  .obj (strEntry "itemNumber" it.itemNumber ++ [("description", JSVal.str it.description)] ++
        numOrNullEntry "quantity" it.quantity ++ numOrNullEntry "unitPrice" it.unitPrice ++
        numOrNullEntry "totalPrice" it.totalPrice ++ strEntry "notes" it.notes)

/-- Serialize the totals block. -/
def serializeTotals (t : QuoteTotals) : JSVal :=
  .obj (numEntry "subtotal" t.subtotal ++ numEntry "taxes" t.taxes ++
        numEntry "shipping" t.shipping ++ numEntry "discount" t.discount ++
        numEntry "total" t.total)

/-- Serialize a normalized extraction (the `JSON.stringify`/`JSON.parse`
round trip of a `QuoteExtraction`). -/
def serializeExtraction (q : QuoteExtraction) : JSVal :=
  .obj ([("fullText", JSVal.str q.fullText), ("metadata", serializeMetadata q.metadata),
         ("items", JSVal.arr (q.items.map serializeItem)), ("totals", serializeTotals q.totals)] ++
        strEntry "remarks" q.remarks)

/- ---------------------------------------------------------------------
The RFQ variant's client-side defaulting (`prepareQuoteForDocument`,
src/app/page.tsx, lines 702-739).  Its metadata carries the six
recognized-default business terms plus identifier/date/subject fields.
`none` models `null`/`undefined`; a present empty string stays
`some ""`.
--------------------------------------------------------------------- -/

/-- The RFQ variant's supplier block (`src/types/quote.ts`,
`SupplierDetails` plus the `website` field used by the page). -/
structure RfqContact where
  name : Option String
  companyName : Option String
  address : Option String
  phone : Option String
  email : Option String
  website : Option String
  taxId : Option String
deriving DecidableEq, Repr

/-- The RFQ variant's metadata (`src/types/quote.ts`, `QuoteMetadata`). -/
structure RfqMetadata where
  supplier : Option RfqContact
  rfqNumber : Option String
  issueDate : Option String
  dueDate : Option String
  subject : Option String
  packing : Option String
  deliveryTerms : Option String
  currency : Option String
  paymentTerms : Option String
  guarantees : Option String
  origin : Option String
  packingRequirements : Option String
  accessoriesInclusions : Option String
deriving DecidableEq, Repr

/-- The RFQ variant's line item (`src/types/quote.ts`, `QuoteItem`). -/
structure RfqItem where
  itemNumber : Option String
  description : String
  quantity : Option JSNum
  notes : Option String
  richDescription : Option String
deriving DecidableEq, Repr

/-- The RFQ variant's extraction record. -/
structure RfqExtraction where
  fullText : String
  metadata : RfqMetadata
  items : List RfqItem
  remarks : Option String
deriving DecidableEq, Repr

/-- `ensureSupplier` inside `prepareQuoteForDocument`: every contact field
becomes `x ?? ""`. -/
def ensureSupplier (supplier : Option RfqContact) : RfqContact :=
  { name := some ((supplier.bind RfqContact.name).getD "")
    companyName := some ((supplier.bind RfqContact.companyName).getD "")
    address := some ((supplier.bind RfqContact.address).getD "")
    phone := some ((supplier.bind RfqContact.phone).getD "")
    email := some ((supplier.bind RfqContact.email).getD "")
    website := some ((supplier.bind RfqContact.website).getD "")
    taxId := some ((supplier.bind RfqContact.taxId).getD "") }

/-- `prepareQuoteForDocument(quote)` (src/app/page.tsx, lines 702-739):
the six recognized business terms fall back to their textual defaults,
while every other optional text field falls back to the empty string
(`?? ""`), and `quantity` keeps `?? null`. -/
def prepareQuoteForDocument (quote : RfqExtraction) : RfqExtraction :=
  { quote with
    remarks := some (quote.remarks.getD "")
    metadata :=
      { supplier := some (ensureSupplier quote.metadata.supplier)
        rfqNumber := some (quote.metadata.rfqNumber.getD "")
        issueDate := some (quote.metadata.issueDate.getD "")
        dueDate := some (quote.metadata.dueDate.getD "")
        subject := some (quote.metadata.subject.getD "")
        packing := some (quote.metadata.packing.getD "Export seaworthy")
        deliveryTerms := some (quote.metadata.deliveryTerms.getD "Your best")
        currency := some (quote.metadata.currency.getD "EUR/USD")
        paymentTerms := some (quote.metadata.paymentTerms.getD "To be agreed")
        guarantees := some (quote.metadata.guarantees.getD "12/18 months")
        origin := some (quote.metadata.origin.getD "TBA")
        packingRequirements := some (quote.metadata.packingRequirements.getD "")
        accessoriesInclusions := some (quote.metadata.accessoriesInclusions.getD "") }
    items := quote.items.map (fun item =>
      { itemNumber := some (item.itemNumber.getD "")
        description := item.description
        quantity := item.quantity
        notes := some (item.notes.getD "")
        richDescription := some (item.richDescription.getD "") }) }

/- ---------------------------------------------------------------------
Bridge lemmas: the `mkRat`-based computable definitions equal their
textbook algebraic forms.
--------------------------------------------------------------------- -/

/-- `Rat.floor` agrees with the `FloorRing` floor. -/
theorem ratFloor_eq_intFloor (q : ℚ) : Rat.floor q = ⌊q⌋ := by
  rw [Rat.floor_def, Rat.floor_def']

/-- The denominator of a rational is nonzero as a rational. -/
theorem den_cast_ne_zero (q : ℚ) : ((q.den : ℚ)) ≠ 0 := by
  exact_mod_cast q.den_nz

/-- The `mkRat` form of a product of rationals is the product itself. -/
theorem mkRat_mul (a b : ℚ) :
    mkRat (a.num * b.num) (a.den * b.den) = a * b := by
  rw [Rat.mkRat_eq_divInt, Rat.divInt_eq_div]
  push_cast
  rw [← div_mul_div_comm, Rat.num_div_den, Rat.num_div_den]

/-- The overflow threshold in textbook form. -/
theorem overflowThreshold_eq : overflowThreshold = (2 : ℚ) ^ 1024 - 2 ^ 970 := by
  have h : (2 : ℕ) ^ 970 ≤ 2 ^ 1024 :=
    Nat.pow_le_pow_right (by norm_num) (by norm_num)
  unfold overflowThreshold
  rw [Rat.mkRat_eq_divInt, Rat.divInt_eq_div]
  push_cast [h]
  norm_num

/-- `JSNum.mul` on finite operands in its direct conditional form over the
exact product. -/
theorem JSNum.mul_eq_ite (a b : ℚ) :
    JSNum.mul (.finite a) (.finite b) =
      if overflowThreshold ≤ a * b then JSNum.inf
      else if a * b ≤ -overflowThreshold then JSNum.ninf
      else JSNum.finite (a * b) := by
  simp only [JSNum.mul, mkRat_mul]

/-- `JSNum.mul` on finite operands whose product stays strictly inside the
binary64 range is rational multiplication. -/
theorem JSNum.mul_finite (a b : ℚ) (h₁ : -overflowThreshold < a * b)
    (h₂ : a * b < overflowThreshold) :
    JSNum.mul (.finite a) (.finite b) = .finite (a * b) := by
  rw [JSNum.mul_eq_ite, if_neg (not_le.mpr h₂), if_neg (not_le.mpr h₁)]

/-- `JSNum.mul` of two finite operands is the exact product, `Infinity`,
or `-Infinity` — never `NaN`. -/
theorem JSNum.mul_cases (a b : ℚ) :
    JSNum.mul (.finite a) (.finite b) = .finite (a * b)
    ∨ JSNum.mul (.finite a) (.finite b) = .inf
    ∨ JSNum.mul (.finite a) (.finite b) = .ninf := by
  rw [JSNum.mul_eq_ite]
  by_cases hi : overflowThreshold ≤ a * b
  · rw [if_pos hi]
    exact Or.inr (Or.inl rfl)
  · rw [if_neg hi]
    by_cases hn : a * b ≤ -overflowThreshold
    · rw [if_pos hn]
      exact Or.inr (Or.inr rfl)
    · rw [if_neg hn]
      exact Or.inl rfl

/-- `toFixed2` is rounding to two decimal places. -/
theorem toFixed2_eq_floor (q : ℚ) :
    toFixed2 q = ((⌊q * 100 + 1 / 2⌋ : ℤ) : ℚ) / 100 := by
  unfold toFixed2
  rw [ratFloor_eq_intFloor, Rat.mkRat_eq_divInt, Rat.divInt_eq_div,
    Rat.mkRat_eq_divInt, Rat.divInt_eq_div]
  congr 2
  congr 1
  have hd : ((q.den : ℚ)) ≠ 0 := den_cast_ne_zero q
  have hq : (q.num : ℚ) = q * q.den := by
    calc (q.num : ℚ) = (q.num : ℚ) / (q.den : ℚ) * (q.den : ℚ) := by
          rw [div_mul_cancel₀ _ hd]
      _ = q * q.den := by rw [Rat.num_div_den]
  push_cast
  rw [div_eq_iff (mul_ne_zero hd two_ne_zero), hq]
  ring

/-- `toFixed2` is idempotent: a value already rounded to two decimal
places rounds to itself. -/
theorem toFixed2_idem (q : ℚ) : toFixed2 (toFixed2 q) = toFixed2 q := by
  rw [toFixed2_eq_floor q, toFixed2_eq_floor]
  have h100 : ((100 : ℚ)) ≠ 0 := by norm_num
  rw [div_mul_cancel₀ _ h100]
  rw [Int.floor_int_add]
  norm_num

/- ---------------------------------------------------------------------
Trimming lemmas.
--------------------------------------------------------------------- -/

/-- `trimList` is idempotent. -/
theorem trimList_idem (cs : List Char) : trimList (trimList cs) = trimList cs := by
  unfold trimList
  obtain ⟨t, ht⟩ := List.rdropWhile_prefix (p := Char.isWhitespace)
    (l := List.dropWhile Char.isWhitespace cs)
  have h₁ : List.dropWhile Char.isWhitespace
      (List.rdropWhile Char.isWhitespace (List.dropWhile Char.isWhitespace cs)) =
      List.rdropWhile Char.isWhitespace (List.dropWhile Char.isWhitespace cs) := by
    cases he : List.rdropWhile Char.isWhitespace (List.dropWhile Char.isWhitespace cs) with
    | nil => simp
    | cons a l =>
        rw [he] at ht
        have hx : List.dropWhile Char.isWhitespace cs = a :: (l ++ t) := by
          rw [← ht]; simp
        have hpa := List.head?_dropWhile_not Char.isWhitespace cs
        rw [hx] at hpa
        simp only [List.head?_cons] at hpa
        simp [List.dropWhile_cons, hpa]
  rw [h₁, List.rdropWhile_idempotent]

/-- `jsTrim` is idempotent. -/
theorem jsTrim_idem (s : String) : jsTrim (jsTrim s) = jsTrim s := by
  unfold jsTrim
  rw [show (String.mk (trimList s.data)).data = trimList s.data from rfl, trimList_idem]

/- ---------------------------------------------------------------------
Output invariants of the normalizer.
--------------------------------------------------------------------- -/

/-- An optional text field holds a trimmed, non-empty string when present. -/
def normalizedOpt (o : Option String) : Prop :=
  ∀ s, o = some s → jsTrim s = s ∧ 0 < s.length

/-- An optional numeric field holds a finite number when present. -/
def finiteOpt (o : Option JSNum) : Prop :=
  ∀ n, o = some n → ∃ q, n = JSNum.finite q

/-- An optional numeric field holds a finite number that is stable under
two-decimal rounding when present. -/
def roundedOpt (o : Option JSNum) : Prop :=
  ∀ n, o = some n → ∃ r, n = JSNum.finite r ∧ toFixed2 r = r

/-- Invariants of a parsed contact block. -/
def NormContact (c : Contact) : Prop :=
  normalizedOpt c.name ∧ normalizedOpt c.companyName ∧ normalizedOpt c.address ∧
  normalizedOpt c.phone ∧ normalizedOpt c.email ∧ normalizedOpt c.taxId

/-- Invariants of an optional contact block. -/
def contactOptNorm (oc : Option Contact) : Prop :=
  ∀ c, oc = some c → NormContact c

/-- Invariants of the parsed metadata. -/
def NormMeta (m : QuoteMetadata) : Prop :=
  contactOptNorm m.supplier ∧ contactOptNorm m.customer ∧
  normalizedOpt m.quoteNumber ∧ normalizedOpt m.issueDate ∧
  normalizedOpt m.expirationDate ∧ normalizedOpt m.currency ∧
  normalizedOpt m.paymentTerms ∧ normalizedOpt m.deliveryTerms ∧
  normalizedOpt m.projectName ∧ normalizedOpt m.additionalNotes

/-- Invariants of a parsed item before `fillMissingTotals`. -/
def NormItem0 (it : QuoteItem) : Prop :=
  0 < it.description.length ∧ finiteOpt it.quantity ∧ finiteOpt it.unitPrice ∧
  finiteOpt it.totalPrice ∧ normalizedOpt it.notes

/-- What a normalized document's item may hold in `totalPrice`: a missing
total price means one of its factors was missing (`fillMissingTotals` has
run), and a present total price is either finite (the coerced or in-range
computed value) or the non-finite result of multiplying the item's own
finite factors (the double-overflow path of `fillMissingTotals`). -/
def totalPriceOk (it : QuoteItem) : Prop :=
  (it.totalPrice = none → it.quantity = none ∨ it.unitPrice = none) ∧
  ∀ n, it.totalPrice = some n →
    (∃ x, n = JSNum.finite x) ∨
    (∃ a b, it.quantity = some (.finite a) ∧ it.unitPrice = some (.finite b) ∧
      n = JSNum.mul (.finite a) (.finite b) ∧ n.isFinite = false)

/-- Invariants of an item of a normalized document. -/
def NormItem (it : QuoteItem) : Prop :=
  0 < it.description.length ∧ finiteOpt it.quantity ∧ finiteOpt it.unitPrice ∧
  normalizedOpt it.notes ∧ totalPriceOk it

/-- Invariants of the parsed totals record. -/
def NormTotals (t : QuoteTotals) : Prop :=
  roundedOpt t.subtotal ∧ roundedOpt t.taxes ∧ roundedOpt t.shipping ∧
  roundedOpt t.discount ∧ roundedOpt t.total

/-- Invariants of a normalized document. -/
def NormDoc (q : QuoteExtraction) : Prop :=
  0 < q.fullText.length ∧ NormMeta q.metadata ∧ (∀ it ∈ q.items, NormItem it) ∧
  q.items ≠ [] ∧ NormTotals q.totals ∧ normalizedOpt q.remarks

/- ---------------------------------------------------------------------
Inversion lemmas: a successful parse satisfies the invariants.
--------------------------------------------------------------------- -/

/-- Inverting `epSeq` on success. -/
theorem epSeq_ok_inv {α β : Type} {f : Except (List String) (α → β)}
    {x : Except (List String) α} {b : β} (h : epSeq f x = .ok b) :
    ∃ g a, f = .ok g ∧ x = .ok a ∧ g a = b := by
  cases f with
  | error e => cases x <;> simp [epSeq] at h
  | ok g =>
      cases x with
      | error e => simp [epSeq] at h
      | ok a => exact ⟨g, a, rfl, rfl, by simpa [epSeq] using h⟩

/-- Inverting `epMap` on success. -/
theorem epMap_ok_inv {α β : Type} {f : α → β} {x : Except (List String) α} {b : β}
    (h : epMap f x = .ok b) : ∃ a, x = .ok a ∧ f a = b := by
  cases x with
  | error e => simp [epMap] at h
  | ok a => exact ⟨a, rfl, by simpa [epMap] using h⟩

/-- `normalizeText` produces a trimmed, non-empty string or nothing. -/
theorem normalizeText_normalized (s : String) : normalizedOpt (normalizeText s) := by
  intro t ht
  unfold normalizeText at ht
  by_cases hl : 0 < (jsTrim s).length
  · simp [hl] at ht
    subst ht
    exact ⟨jsTrim_idem s, hl⟩
  · simp [hl] at ht

/-- A successful `parseOptionalString` satisfies the text invariant. -/
theorem parseOptionalString_ok_norm {v : JSVal} {o : Option String}
    (h : parseOptionalString v = .ok o) : normalizedOpt o := by
  cases v <;> simp [parseOptionalString] at h
  case str s => subst h; exact normalizeText_normalized s
  case undef => subst h; intro s hs; simp at hs

/-- A successful `parseRequiredString` returns a non-empty string. -/
theorem parseRequiredString_ok_pos {msg : String} {v : JSVal} {s : String}
    (h : parseRequiredString msg v = .ok s) : 0 < s.length := by
  cases v <;> simp [parseRequiredString] at h
  case str s' =>
    by_cases hl : 0 < s'.length
    · simp [hl] at h; subst h; exact hl
    · simp [hl] at h

/-- `normalizeNumber` only ever returns finite numbers. -/
theorem normalizeNumber_finite {v : JSVal} {n : JSNum}
    (h : normalizeNumber v = some n) : ∃ q, n = JSNum.finite q := by
  have haux : ∀ m : JSNum, (if m.isFinite then some m else none) = some n →
      ∃ q, n = JSNum.finite q := by
    intro m hm
    split at hm
    next hf =>
      obtain rfl : m = n := by simpa using hm
      cases m <;> simp [JSNum.isFinite] at hf
      case finite q => exact ⟨q, rfl⟩
    next => simp at hm
  cases v with
  | num m => exact haux m h
  | str s =>
      simp only [normalizeNumber] at h
      split at h
      · simp at h
      · exact haux _ h
  | null => simp [normalizeNumber] at h
  | undef => simp [normalizeNumber] at h
  | bool b => simp [normalizeNumber] at h
  | arr xs => simp [normalizeNumber] at h
  | obj fs => simp [normalizeNumber] at h

/-- A successful `parseNumberLike` satisfies the finiteness invariant. -/
theorem parseNumberLike_ok_finite {v : JSVal} {o : Option JSNum}
    (h : parseNumberLike v = .ok o) : finiteOpt o := by
  intro n hn
  cases v <;> simp [parseNumberLike] at h
  case num m => subst h; exact normalizeNumber_finite hn
  case str s => subst h; exact normalizeNumber_finite hn
  case null => rw [← h] at hn; exact normalizeNumber_finite hn
  case undef => subst h; simp at hn

/-- A successful `parseContact` satisfies the contact invariant. -/
theorem parseContact_ok_norm {v : JSVal} {oc : Option Contact}
    (h : parseContact v = .ok oc) : contactOptNorm oc := by
  intro c hc
  cases v <;> simp only [parseContact] at h
  case undef =>
    obtain rfl : (none : Option Contact) = oc := by simpa using h
    simp at hc
  case obj fs =>
    obtain ⟨a, hx, hb⟩ := epMap_ok_inv h
    obtain ⟨g5, a6, hC5, hp6, happ6⟩ := epSeq_ok_inv hx
    obtain ⟨g4, a5, hC4, hp5, happ5⟩ := epSeq_ok_inv hC5
    obtain ⟨g3, a4, hC3, hp4, happ4⟩ := epSeq_ok_inv hC4
    obtain ⟨g2, a3, hC2, hp3, happ3⟩ := epSeq_ok_inv hC3
    obtain ⟨g1, a2, hC1, hp2, happ2⟩ := epSeq_ok_inv hC2
    obtain ⟨g0, a1, hC0, hp1, happ1⟩ := epSeq_ok_inv hC1
    obtain rfl : Contact.mk = g0 := by injection hC0
    subst happ1; subst happ2; subst happ3; subst happ4; subst happ5; subst happ6
    rw [← hb] at hc
    obtain rfl : Contact.mk a1 a2 a3 a4 a5 a6 = c := by injection hc
    exact ⟨parseOptionalString_ok_norm hp1, parseOptionalString_ok_norm hp2,
      parseOptionalString_ok_norm hp3, parseOptionalString_ok_norm hp4,
      parseOptionalString_ok_norm hp5, parseOptionalString_ok_norm hp6⟩
  all_goals simp at h

/-- A successful `parseMetadata` satisfies the metadata invariant. -/
theorem parseMetadata_ok_norm {v : JSVal} {m : QuoteMetadata}
    (h : parseMetadata v = .ok m) : NormMeta m := by
  cases v <;> simp only [parseMetadata] at h
  case undef =>
    obtain rfl : (⟨none, none, none, none, none, none, none, none, none, none⟩ :
        QuoteMetadata) = m := by simpa using h
    refine ⟨?_, ?_, ?_, ?_, ?_, ?_, ?_, ?_, ?_, ?_⟩ <;> intro x hx <;> simp at hx
  case obj fs =>
    obtain ⟨g9, a10, hC9, hp10, happ10⟩ := epSeq_ok_inv h
    obtain ⟨g8, a9, hC8, hp9, happ9⟩ := epSeq_ok_inv hC9
    obtain ⟨g7, a8, hC7, hp8, happ8⟩ := epSeq_ok_inv hC8
    obtain ⟨g6, a7, hC6, hp7, happ7⟩ := epSeq_ok_inv hC7
    obtain ⟨g5, a6, hC5, hp6, happ6⟩ := epSeq_ok_inv hC6
    obtain ⟨g4, a5, hC4, hp5, happ5⟩ := epSeq_ok_inv hC5
    obtain ⟨g3, a4, hC3, hp4, happ4⟩ := epSeq_ok_inv hC4
    obtain ⟨g2, a3, hC2, hp3, happ3⟩ := epSeq_ok_inv hC3
    obtain ⟨g1, a2, hC1, hp2, happ2⟩ := epSeq_ok_inv hC2
    obtain ⟨g0, a1, hC0, hp1, happ1⟩ := epSeq_ok_inv hC1
    obtain rfl : QuoteMetadata.mk = g0 := by injection hC0
    subst happ1; subst happ2; subst happ3; subst happ4; subst happ5
    subst happ6; subst happ7; subst happ8; subst happ9
    obtain rfl : QuoteMetadata.mk a1 a2 a3 a4 a5 a6 a7 a8 a9 a10 = m := happ10
    exact ⟨parseContact_ok_norm hp1, parseContact_ok_norm hp2,
      parseOptionalString_ok_norm hp3, parseOptionalString_ok_norm hp4,
      parseOptionalString_ok_norm hp5, parseOptionalString_ok_norm hp6,
      parseOptionalString_ok_norm hp7, parseOptionalString_ok_norm hp8,
      parseOptionalString_ok_norm hp9, parseOptionalString_ok_norm hp10⟩
  all_goals simp at h

/-- A successful `parseItem` satisfies the pre-fill item invariant. -/
theorem parseItem_ok_norm {v : JSVal} {it : QuoteItem}
    (h : parseItem v = .ok it) : NormItem0 it := by
  cases v <;> simp only [parseItem] at h
  case obj fs =>
    obtain ⟨g5, a6, hC5, hp6, happ6⟩ := epSeq_ok_inv h
    obtain ⟨g4, a5, hC4, hp5, happ5⟩ := epSeq_ok_inv hC5
    obtain ⟨g3, a4, hC3, hp4, happ4⟩ := epSeq_ok_inv hC4
    obtain ⟨g2, a3, hC2, hp3, happ3⟩ := epSeq_ok_inv hC3
    obtain ⟨g1, a2, hC1, hp2, happ2⟩ := epSeq_ok_inv hC2
    obtain ⟨g0, a1, hC0, hp1, happ1⟩ := epSeq_ok_inv hC1
    obtain rfl : QuoteItem.mk = g0 := by injection hC0
    subst happ1; subst happ2; subst happ3; subst happ4; subst happ5
    obtain rfl : QuoteItem.mk a1 a2 a3 a4 a5 a6 = it := happ6
    exact ⟨parseRequiredString_ok_pos hp2, parseNumberLike_ok_finite hp3,
      parseNumberLike_ok_finite hp4, parseNumberLike_ok_finite hp5,
      parseOptionalString_ok_norm hp6⟩
  all_goals simp at h

/-- Element-wise item parsing preserves the invariant and the length. -/
theorem parseItemList_ok {xs : List JSVal} {l : List QuoteItem}
    (h : parseItemList xs = .ok l) :
    l.length = xs.length ∧ ∀ it ∈ l, NormItem0 it := by
  induction xs generalizing l with
  | nil =>
      obtain rfl : ([] : List QuoteItem) = l := by simpa [parseItemList] using h
      exact ⟨rfl, by simp⟩
  | cons v rest ih =>
      simp only [parseItemList] at h
      obtain ⟨g1, tl, hC1, htl, happ1⟩ := epSeq_ok_inv h
      obtain ⟨g0, hd, hC0, hhd, happ0⟩ := epSeq_ok_inv hC1
      obtain rfl : (List.cons : QuoteItem → List QuoteItem → List QuoteItem) = g0 := by
        injection hC0
      subst happ0
      obtain rfl : hd :: tl = l := happ1
      obtain ⟨hlen, hmem⟩ := ih htl
      refine ⟨by simp [hlen], ?_⟩
      intro it hit
      rcases List.mem_cons.mp hit with rfl | hmem'
      · exact parseItem_ok_norm hhd
      · exact hmem it hmem'

/-- A successful `parseItems` yields a non-empty invariant-satisfying list. -/
theorem parseItems_ok {v : JSVal} {l : List QuoteItem}
    (h : parseItems v = .ok l) : l ≠ [] ∧ ∀ it ∈ l, NormItem0 it := by
  cases v <;> simp only [parseItems] at h
  case arr xs =>
    cases xs with
    | nil => simp at h
    | cons x rest =>
        obtain ⟨hlen, hmem⟩ := parseItemList_ok h
        refine ⟨?_, hmem⟩
        intro hl
        rw [hl] at hlen
        simp at hlen
  all_goals simp at h

/-- `normTotField` always yields a finite, two-decimal-stable number or
nothing. -/
theorem normTotField_rounded (v : Option JSNum) : roundedOpt (normTotField v) := by
  intro n hn
  cases v with
  | none => simp [normTotField] at hn
  | some m =>
      cases m with
      | finite q =>
          simp [normTotField, JSNum.isFinite, JSNum.isNaN, JSNum.toFixed2Num] at hn
          exact ⟨toFixed2 q, hn.symm, toFixed2_idem q⟩
      | nan => simp [normTotField, JSNum.isFinite] at hn
      | inf => simp [normTotField, JSNum.isFinite, JSNum.isNaN, JSNum.toFixed2Num] at hn
      | ninf => simp [normTotField, JSNum.isFinite, JSNum.isNaN, JSNum.toFixed2Num] at hn

/-- `normaliseTotals` always establishes the totals invariant. -/
theorem normaliseTotals_norm (t : QuoteTotals) : NormTotals (normaliseTotals t) :=
  ⟨normTotField_rounded _, normTotField_rounded _, normTotField_rounded _,
   normTotField_rounded _, normTotField_rounded _⟩

/-- A successful `parseTotals` satisfies the totals invariant. -/
theorem parseTotals_ok_norm {v : JSVal} {t : QuoteTotals}
    (h : parseTotals v = .ok t) : NormTotals t := by
  cases v <;> simp only [parseTotals] at h
  case undef =>
    obtain rfl : normaliseTotals ⟨none, none, none, none, none⟩ = t := by simpa using h
    exact normaliseTotals_norm _
  case obj fs =>
    obtain ⟨a, hx, hb⟩ := epMap_ok_inv h
    obtain rfl : normaliseTotals a = t := hb
    exact normaliseTotals_norm a
  all_goals simp at h

/-- `fillMissingTotals` establishes the full item invariant. -/
theorem fillMissingTotals_norm {it : QuoteItem} (h : NormItem0 it) :
    NormItem (fillMissingTotals it) := by
  obtain ⟨inum, desc, qty, up, tp, nts⟩ := it
  obtain ⟨hdesc, hq, hu, ht, hn⟩ := h
  cases tp with
  | some n =>
      refine ⟨hdesc, hq, hu, hn, ?_, ?_⟩
      · intro hc
        simp [fillMissingTotals] at hc
      · intro n' hn'
        have hs : some n = some n' := by simpa [fillMissingTotals] using hn'
        exact Or.inl (ht n' hs)
  | none =>
      cases qty with
      | none =>
          refine ⟨hdesc, hq, hu, hn, fun _ => Or.inl rfl, ?_⟩
          intro n' hn'
          simp [fillMissingTotals] at hn'
      | some nq =>
          cases up with
          | none =>
              refine ⟨hdesc, hq, hu, hn, fun _ => Or.inr rfl, ?_⟩
              intro n' hn'
              simp [fillMissingTotals] at hn'
          | some nu =>
              obtain ⟨q1, hq1⟩ := hq nq rfl
              obtain ⟨u1, hu1⟩ := hu nu rfl
              subst hq1; subst hu1
              refine ⟨hdesc, hq, hu, hn, ?_, ?_⟩
              · intro hc
                simp [fillMissingTotals] at hc
              · intro n' hn'
                have hn2 : (JSNum.mul (.finite q1) (.finite u1)).toFixed2Num = n' := by
                  simpa [fillMissingTotals] using hn'
                rcases JSNum.mul_cases q1 u1 with hm | hm | hm
                · left
                  rw [hm] at hn2
                  simp only [JSNum.toFixed2Num] at hn2
                  exact ⟨toFixed2 (q1 * u1), hn2.symm⟩
                · right
                  rw [hm] at hn2
                  simp only [JSNum.toFixed2Num] at hn2
                  refine ⟨q1, u1, rfl, rfl, ?_, ?_⟩
                  · rw [← hn2]
                    exact hm.symm
                  · rw [← hn2]
                    rfl
                · right
                  rw [hm] at hn2
                  simp only [JSNum.toFixed2Num] at hn2
                  refine ⟨q1, u1, rfl, rfl, ?_, ?_⟩
                  · rw [← hn2]
                    exact hm.symm
                  · rw [← hn2]
                    rfl

/-- On an item that already satisfies the full invariant,
`fillMissingTotals` is the identity. -/
theorem fillMissingTotals_id {it : QuoteItem} (h : NormItem it) :
    fillMissingTotals it = it := by
  obtain ⟨inum, desc, qty, up, tp, nts⟩ := it
  obtain ⟨-, -, -, -, hlink, -⟩ := h
  cases tp with
  | some n => rfl
  | none =>
      rcases hlink rfl with hq | hu
      · simp only at hq
        subst hq
        cases up <;> rfl
      · simp only at hu
        subst hu
        cases qty <;> rfl

/-- A successful `parseExtraction` satisfies every component invariant
(with the pre-fill item invariant). -/
theorem parseExtraction_ok_norm {v : JSVal} {q : QuoteExtraction}
    (h : parseExtraction v = .ok q) :
    0 < q.fullText.length ∧ NormMeta q.metadata ∧ (∀ it ∈ q.items, NormItem0 it) ∧
    q.items ≠ [] ∧ NormTotals q.totals ∧ normalizedOpt q.remarks := by
  cases v <;> simp only [parseExtraction] at h
  case obj fs =>
    obtain ⟨g4, a5, hC4, hp5, happ5⟩ := epSeq_ok_inv h
    obtain ⟨g3, a4, hC3, hp4, happ4⟩ := epSeq_ok_inv hC4
    obtain ⟨g2, a3, hC2, hp3, happ3⟩ := epSeq_ok_inv hC3
    obtain ⟨g1, a2, hC1, hp2, happ2⟩ := epSeq_ok_inv hC2
    obtain ⟨g0, a1, hC0, hp1, happ1⟩ := epSeq_ok_inv hC1
    obtain rfl : QuoteExtraction.mk = g0 := by injection hC0
    subst happ1; subst happ2; subst happ3; subst happ4
    obtain rfl : QuoteExtraction.mk a1 a2 a3 a4 a5 = q := happ5
    obtain ⟨hne, hmem⟩ := parseItems_ok hp3
    exact ⟨parseRequiredString_ok_pos hp1, parseMetadata_ok_norm hp2, hmem, hne,
      parseTotals_ok_norm hp4, parseOptionalString_ok_norm hp5⟩
  all_goals simp at h

/-- Inverting `normalizeExtraction` on success. -/
theorem normalizeExtraction_ok_inv {raw : JSVal} {q : QuoteExtraction}
    (h : normalizeExtraction raw = .ok q) :
    ∃ parsed, parseExtraction raw = .ok parsed ∧
      q = ⟨parsed.fullText, parsed.metadata, parsed.items.map fillMissingTotals,
           parsed.totals, parsed.remarks⟩ := by
  unfold normalizeExtraction at h
  cases hp : parseExtraction raw with
  | error e => rw [hp] at h; simp at h
  | ok parsed =>
      rw [hp] at h
      refine ⟨parsed, rfl, ?_⟩
      injection h with h'
      exact h'.symm

/-- Every successful `normalizeExtraction` output satisfies the document
invariant. -/
theorem normalizeExtraction_ok_norm {raw : JSVal} {q : QuoteExtraction}
    (h : normalizeExtraction raw = .ok q) : NormDoc q := by
  obtain ⟨parsed, hp, rfl⟩ := normalizeExtraction_ok_inv h
  obtain ⟨hft, hmeta, hitems, hne, htot, hrem⟩ := parseExtraction_ok_norm hp
  refine ⟨hft, hmeta, ?_, ?_, htot, hrem⟩
  · intro it hit
    simp only [List.mem_map] at hit
    obtain ⟨pre, hpre, rfl⟩ := hit
    exact fillMissingTotals_norm (hitems pre hpre)
  · simp only [ne_eq, List.map_eq_nil_iff]
    exact hne

/- ---------------------------------------------------------------------
Round trip: re-parsing a serialized normalized document succeeds and
returns the same document (defensive re-validation is the identity).
--------------------------------------------------------------------- -/

/-- The value a re-parse reads for an optional string field. -/
def optStrVal (o : Option String) : JSVal :=
  match o with
  | none => .undef
  | some s => .str s

/-- The value a re-parse reads for an optional number field. -/
def optNumVal (o : Option JSNum) : JSVal :=
  match o with
  | none => .undef
  | some n => .num n

/-- The value a re-parse reads for a `number | null` field (non-finite
numbers were serialized as `null`). -/
def numOrNullVal (o : Option JSNum) : JSVal :=
  match o with
  | some n => if n.isFinite then .num n else .null
  | none => .null

/-- What a `number | null` field looks like after one serialize/re-parse
step: a non-finite value collapses to absent, everything else survives. -/
def stripOpt (o : Option JSNum) : Option JSNum :=
  match o with
  | some n => if n.isFinite then some n else none
  | none => none

/-- On finite-or-absent fields, the serialize/re-parse step is the
identity. -/
theorem stripOpt_eq_self {o : Option JSNum} (h : finiteOpt o) : stripOpt o = o := by
  cases o with
  | none => rfl
  | some n =>
      obtain ⟨q, rfl⟩ := h n rfl
      rfl

/-- An item after one serialize/re-parse step (before `fillMissingTotals`
runs again): only a non-finite `totalPrice` changes, collapsing to
absent. -/
def reparseItem (it : QuoteItem) : QuoteItem :=
  { it with totalPrice := stripOpt it.totalPrice }

/-- The value a re-parse reads for an optional contact field. -/
def optContactVal (o : Option Contact) : JSVal :=
  match o with
  | some c => serializeContact c
  | none => .undef

theorem lookupField_nil (k : String) : lookupField [] k = .undef := rfl

theorem lookupField_cons_self (k : String) (v : JSVal) (rest : List (String × JSVal)) :
    lookupField ((k, v) :: rest) k = v := by
  simp [lookupField, List.find?]

theorem lookupField_cons_ne {q k : String} (h : (q == k) = false) (v : JSVal)
    (rest : List (String × JSVal)) :
    lookupField ((q, v) :: rest) k = lookupField rest k := by
  simp [lookupField, List.find?, h]

theorem skip_strEntry {q k : String} (h : (q == k) = false) (o : Option String)
    (rest : List (String × JSVal)) :
    lookupField (strEntry q o ++ rest) k = lookupField rest k := by
  cases o <;> simp [strEntry, lookupField_cons_ne h]

theorem self_strEntry {k : String} (o : Option String) (rest : List (String × JSVal))
    (h : lookupField rest k = .undef) :
    lookupField (strEntry k o ++ rest) k = optStrVal o := by
  cases o <;> simp [strEntry, optStrVal, lookupField_cons_self, h]

theorem last_strEntry (k : String) (o : Option String) :
    lookupField (strEntry k o) k = optStrVal o := by
  cases o <;> simp [strEntry, optStrVal, lookupField_cons_self, lookupField_nil]

theorem last_skip_strEntry {q k : String} (h : (q == k) = false) (o : Option String) :
    lookupField (strEntry q o) k = .undef := by
  cases o <;> simp [strEntry, lookupField_cons_ne h, lookupField_nil]

theorem skip_numEntry {q k : String} (h : (q == k) = false) (o : Option JSNum)
    (rest : List (String × JSVal)) :
    lookupField (numEntry q o ++ rest) k = lookupField rest k := by
  cases o <;> simp [numEntry, lookupField_cons_ne h]

theorem self_numEntry {k : String} (o : Option JSNum) (rest : List (String × JSVal))
    (h : lookupField rest k = .undef) :
    lookupField (numEntry k o ++ rest) k = optNumVal o := by
  cases o <;> simp [numEntry, optNumVal, lookupField_cons_self, h]

theorem last_numEntry (k : String) (o : Option JSNum) :
    lookupField (numEntry k o) k = optNumVal o := by
  cases o <;> simp [numEntry, optNumVal, lookupField_cons_self, lookupField_nil]

theorem last_skip_numEntry {q k : String} (h : (q == k) = false) (o : Option JSNum) :
    lookupField (numEntry q o) k = .undef := by
  cases o <;> simp [numEntry, lookupField_cons_ne h, lookupField_nil]

theorem skip_numOrNullEntry {q k : String} (h : (q == k) = false) (o : Option JSNum)
    (rest : List (String × JSVal)) :
    lookupField (numOrNullEntry q o ++ rest) k = lookupField rest k := by
  cases o <;> simp [numOrNullEntry, lookupField_cons_ne h]

theorem self_numOrNullEntry {k : String} (o : Option JSNum) (rest : List (String × JSVal)) :
    lookupField (numOrNullEntry k o ++ rest) k = numOrNullVal o := by
  cases o <;> simp [numOrNullEntry, numOrNullVal, lookupField_cons_self]

theorem skip_contactEntry {q k : String} (h : (q == k) = false) (o : Option Contact)
    (rest : List (String × JSVal)) :
    lookupField (contactEntry q o ++ rest) k = lookupField rest k := by
  cases o <;> simp [contactEntry, lookupField_cons_ne h]

theorem self_contactEntry {k : String} (o : Option Contact) (rest : List (String × JSVal))
    (h : lookupField rest k = .undef) :
    lookupField (contactEntry k o ++ rest) k = optContactVal o := by
  cases o <;> simp [contactEntry, optContactVal, lookupField_cons_self, h]

/-- Re-parsing a normalized optional string gives it back. -/
theorem parseOptionalString_val {o : Option String} (h : normalizedOpt o) :
    parseOptionalString (optStrVal o) = .ok o := by
  cases o with
  | none => rfl
  | some s =>
      obtain ⟨ht, hl⟩ := h s rfl
      simp [optStrVal, parseOptionalString, normalizeText, ht, hl]

/-- Re-parsing a serialized item number gives it back (no invariant
needed: the schema passes strings through verbatim). -/
theorem parseItemNumber_val (o : Option String) :
    parseItemNumber (optStrVal o) = .ok o := by
  cases o <;> rfl

/-- Re-parsing a serialized `number | null` field gives back its
`stripOpt` image (finite values survive, non-finite ones were serialized
as `null` and come back absent). -/
theorem parseNumberLike_nullval (o : Option JSNum) :
    parseNumberLike (numOrNullVal o) = .ok (stripOpt o) := by
  cases o with
  | none => rfl
  | some n => cases n <;> rfl

/-- Re-parsing a finite optional number field gives it back. -/
theorem parseNumberLike_val {o : Option JSNum} (h : finiteOpt o) :
    parseNumberLike (optNumVal o) = .ok o := by
  cases o with
  | none => rfl
  | some n => obtain ⟨q, rfl⟩ := h n rfl; rfl

/-- Re-parsing a non-empty string against `z.string().min(1)` gives it
back. -/
theorem parseRequiredString_val {s : String} (msg : String) (h : 0 < s.length) :
    parseRequiredString msg (.str s) = .ok s := by
  simp [parseRequiredString, h]

/-- `normTotField` is the identity on already-rounded fields. -/
theorem normTotField_stable {o : Option JSNum} (h : roundedOpt o) :
    normTotField o = o := by
  cases o with
  | none => rfl
  | some n =>
      obtain ⟨r, rfl, hr⟩ := h n rfl
      simp [normTotField, JSNum.isFinite, JSNum.isNaN, JSNum.toFixed2Num, hr]

/-- Re-parsing a serialized normalized contact block gives it back. -/
theorem parseContact_roundtrip {c : Contact} (h : NormContact c) :
    parseContact (serializeContact c) = .ok (some c) := by
  obtain ⟨h1, h2, h3, h4, h5, h6⟩ := h
  simp [parseContact, serializeContact, List.append_assoc,
    skip_strEntry, self_strEntry, last_strEntry, last_skip_strEntry, epSeq, epMap,
    parseOptionalString_val h1, parseOptionalString_val h2, parseOptionalString_val h3,
    parseOptionalString_val h4, parseOptionalString_val h5, parseOptionalString_val h6]

/-- Re-parsing a serialized optional contact block gives it back. -/
theorem parseContact_val {oc : Option Contact} (h : contactOptNorm oc) :
    parseContact (optContactVal oc) = .ok oc := by
  cases oc with
  | none => rfl
  | some c => exact parseContact_roundtrip (h c rfl)

/-- Re-parsing serialized normalized metadata gives it back. -/
theorem parseMetadata_roundtrip {m : QuoteMetadata} (h : NormMeta m) :
    parseMetadata (serializeMetadata m) = .ok m := by
  obtain ⟨h1, h2, h3, h4, h5, h6, h7, h8, h9, h10⟩ := h
  simp [parseMetadata, serializeMetadata, List.append_assoc,
    skip_strEntry, self_strEntry, last_strEntry, last_skip_strEntry,
    skip_contactEntry, self_contactEntry, epSeq,
    parseContact_val h1, parseContact_val h2,
    parseOptionalString_val h3, parseOptionalString_val h4, parseOptionalString_val h5,
    parseOptionalString_val h6, parseOptionalString_val h7, parseOptionalString_val h8,
    parseOptionalString_val h9, parseOptionalString_val h10]

/-- Re-parsing a serialized normalized item gives back its `reparseItem`
image. -/
theorem parseItem_roundtrip {it : QuoteItem} (h : NormItem it) :
    parseItem (serializeItem it) = .ok (reparseItem it) := by
  obtain ⟨hdesc, hq, hu, hn, -, -⟩ := h
  simp [parseItem, serializeItem, reparseItem, List.append_assoc,
    skip_strEntry, self_strEntry, last_strEntry, last_skip_strEntry,
    skip_numOrNullEntry, self_numOrNullEntry,
    lookupField_cons_self, lookupField_cons_ne, epSeq,
    parseItemNumber_val, parseRequiredString_val _ hdesc,
    parseNumberLike_nullval, stripOpt_eq_self hq, stripOpt_eq_self hu,
    parseOptionalString_val hn]

/-- Re-parsing a list of serialized normalized items gives back the
`reparseItem` images. -/
theorem parseItemList_roundtrip {l : List QuoteItem} (h : ∀ it ∈ l, NormItem it) :
    parseItemList (l.map serializeItem) = .ok (l.map reparseItem) := by
  induction l with
  | nil => rfl
  | cons x xs ih =>
      have hx := h x (by simp)
      have hxs := ih (fun it hit => h it (by simp [hit]))
      simp [parseItemList, epSeq, parseItem_roundtrip hx, hxs]

/-- Re-parsing a serialized non-empty normalized item array gives back
the `reparseItem` images. -/
theorem parseItems_roundtrip {l : List QuoteItem} (hne : l ≠ [])
    (h : ∀ it ∈ l, NormItem it) :
    parseItems (.arr (l.map serializeItem)) = .ok (l.map reparseItem) := by
  cases l with
  | nil => exact absurd rfl hne
  | cons x xs =>
      have := parseItemList_roundtrip h
      simpa [parseItems] using this

/-- `normaliseTotals` is the identity on an already-normalized totals
record. -/
theorem normaliseTotals_stable {t : QuoteTotals} (h : NormTotals t) :
    normaliseTotals t = t := by
  obtain ⟨h1, h2, h3, h4, h5⟩ := h
  unfold normaliseTotals
  rw [normTotField_stable h1, normTotField_stable h2, normTotField_stable h3,
    normTotField_stable h4, normTotField_stable h5]

/-- Re-parsing a serialized normalized totals record gives it back. -/
theorem parseTotals_roundtrip {t : QuoteTotals} (h : NormTotals t) :
    parseTotals (serializeTotals t) = .ok t := by
  obtain ⟨h1, h2, h3, h4, h5⟩ := h
  have hfin : ∀ {o : Option JSNum}, roundedOpt o → finiteOpt o := by
    intro o ho n hn
    obtain ⟨r, rfl, _⟩ := ho n hn
    exact ⟨r, rfl⟩
  simp [parseTotals, serializeTotals, List.append_assoc,
    skip_numEntry, self_numEntry, last_numEntry, last_skip_numEntry, epSeq, epMap,
    parseNumberLike_val (hfin h1), parseNumberLike_val (hfin h2),
    parseNumberLike_val (hfin h3), parseNumberLike_val (hfin h4),
    parseNumberLike_val (hfin h5),
    normaliseTotals_stable ⟨h1, h2, h3, h4, h5⟩]

/-- Applying `fillMissingTotals` to the serialize/re-parse image of a
normalized item restores the item: a finite-or-absent `totalPrice`
survives untouched, and the overflow case is recomputed from the item's
own factors to the same non-finite value. -/
theorem fillMissingTotals_reparse {it : QuoteItem} (h : NormItem it) :
    fillMissingTotals (reparseItem it) = it := by
  obtain ⟨inum, desc, qty, up, tp, nts⟩ := it
  obtain ⟨-, -, -, -, hlink, hshape⟩ := h
  cases tp with
  | none =>
      rcases hlink rfl with hqn | hun
      · simp only at hqn
        subst hqn
        cases up <;> rfl
      · simp only at hun
        subst hun
        cases qty <;> rfl
  | some n =>
      cases n with
      | finite x => rfl
      | nan =>
          rcases hshape JSNum.nan rfl with ⟨x, hx⟩ | ⟨a, b, hqe, hue, hmul, -⟩
          · exact absurd hx (by simp)
          · rcases JSNum.mul_cases a b with hm | hm | hm <;> rw [hm] at hmul <;> simp at hmul
      | inf =>
          rcases hshape JSNum.inf rfl with ⟨x, hx⟩ | ⟨a, b, hqe, hue, hmul, -⟩
          · exact absurd hx (by simp)
          · obtain rfl : qty = some (.finite a) := hqe
            obtain rfl : up = some (.finite b) := hue
            have hfix : (JSNum.mul (.finite a) (.finite b)).toFixed2Num = JSNum.inf := by
              rw [← hmul]
              rfl
            show QuoteItem.mk inum desc (some (.finite a)) (some (.finite b))
                (some ((JSNum.mul (.finite a) (.finite b)).toFixed2Num)) nts
              = QuoteItem.mk inum desc (some (.finite a)) (some (.finite b))
                (some JSNum.inf) nts
            rw [hfix]
      | ninf =>
          rcases hshape JSNum.ninf rfl with ⟨x, hx⟩ | ⟨a, b, hqe, hue, hmul, -⟩
          · exact absurd hx (by simp)
          · obtain rfl : qty = some (.finite a) := hqe
            obtain rfl : up = some (.finite b) := hue
            have hfix : (JSNum.mul (.finite a) (.finite b)).toFixed2Num = JSNum.ninf := by
              rw [← hmul]
              rfl
            show QuoteItem.mk inum desc (some (.finite a)) (some (.finite b))
                (some ((JSNum.mul (.finite a) (.finite b)).toFixed2Num)) nts
              = QuoteItem.mk inum desc (some (.finite a)) (some (.finite b))
                (some JSNum.ninf) nts
            rw [hfix]

/-- Re-parsing a serialized normalized extraction gives it back, with
each item replaced by its `reparseItem` image. -/
theorem parseExtraction_roundtrip {q : QuoteExtraction} (h : NormDoc q) :
    parseExtraction (serializeExtraction q) =
      .ok (QuoteExtraction.mk q.fullText q.metadata (q.items.map reparseItem)
        q.totals q.remarks) := by
  obtain ⟨hft, hmeta, hitems, hne, htot, hrem⟩ := h
  simp [parseExtraction, serializeExtraction, List.append_assoc,
    lookupField_cons_self, lookupField_cons_ne, last_strEntry, epSeq,
    parseRequiredString_val _ hft,
    parseMetadata_roundtrip hmeta,
    parseItems_roundtrip hne hitems,
    parseTotals_roundtrip htot,
    parseOptionalString_val hrem]

/-- Re-normalizing a serialized normalized document is the identity
(defensive re-validation changes nothing, including on the overflow
path, where the non-finite total is recomputed). -/
theorem normalizeExtraction_roundtrip {q : QuoteExtraction} (h : NormDoc q) :
    normalizeExtraction (serializeExtraction q) = .ok q := by
  have hp := parseExtraction_roundtrip h
  obtain ⟨hft, hmeta, hitems, hne, htot, hrem⟩ := h
  unfold normalizeExtraction
  rw [hp]
  have hmap : (q.items.map reparseItem).map fillMissingTotals = q.items := by
    rw [List.map_map]
    have h1 : ∀ it ∈ q.items, (fillMissingTotals ∘ reparseItem) it = id it :=
      fun it hit => fillMissingTotals_reparse (hitems it hit)
    rw [List.map_congr_left h1, List.map_id]
  show Except.ok (QuoteExtraction.mk q.fullText q.metadata
    ((q.items.map reparseItem).map fillMissingTotals) q.totals q.remarks) = Except.ok q
  rw [hmap]

/- ---------------------------------------------------------------------
Error propagation through the field chain.
--------------------------------------------------------------------- -/

theorem epSeq_error_right {α β : Type} {f : Except (List String) (α → β)}
    {x : Except (List String) α} {e : List String} (h : x = .error e) :
    ∃ e', epSeq f x = .error e' := by
  cases f with
  | ok g => exact ⟨e, by rw [h]; rfl⟩
  | error e1 => exact ⟨e1 ++ e, by rw [h]; rfl⟩

theorem epSeq_error_left {α β : Type} {f : Except (List String) (α → β)}
    {e : List String} (h : f = .error e) (x : Except (List String) α) :
    ∃ e', epSeq f x = .error e' := by
  cases x with
  | ok a => exact ⟨e, by rw [h]; rfl⟩
  | error e2 => exact ⟨e ++ e2, by rw [h]; rfl⟩

/-- When the `fullText` field fails, the whole parse fails. -/
theorem parseExtraction_error_fullText {fs : List (String × JSVal)} {e : List String}
    (h : parseRequiredString "String must contain at least 1 character(s)"
      (lookupField fs "fullText") = .error e) :
    ∃ e', parseExtraction (.obj fs) = .error e' := by
  obtain ⟨e1, h1⟩ := epSeq_error_right (f := .ok QuoteExtraction.mk) h
  obtain ⟨e2, h2⟩ := epSeq_error_left h1 (parseMetadata (lookupField fs "metadata"))
  obtain ⟨e3, h3⟩ := epSeq_error_left h2 (parseItems (lookupField fs "items"))
  obtain ⟨e4, h4⟩ := epSeq_error_left h3 (parseTotals (lookupField fs "totals"))
  obtain ⟨e5, h5⟩ := epSeq_error_left h4 (parseOptionalString (lookupField fs "remarks"))
  exact ⟨e5, h5⟩

/-- When the `items` field fails, the whole parse fails. -/
theorem parseExtraction_error_items {fs : List (String × JSVal)} {e : List String}
    (h : parseItems (lookupField fs "items") = .error e) :
    ∃ e', parseExtraction (.obj fs) = .error e' := by
  obtain ⟨e3, h3⟩ := epSeq_error_right
    (f := epSeq (epSeq (.ok QuoteExtraction.mk)
      (parseRequiredString "String must contain at least 1 character(s)"
        (lookupField fs "fullText")))
      (parseMetadata (lookupField fs "metadata"))) h
  obtain ⟨e4, h4⟩ := epSeq_error_left h3 (parseTotals (lookupField fs "totals"))
  obtain ⟨e5, h5⟩ := epSeq_error_left h4 (parseOptionalString (lookupField fs "remarks"))
  exact ⟨e5, h5⟩

/-- A failing parse makes `normalizeExtraction` throw the joined message. -/
theorem normalizeExtraction_error_of_parse {raw : JSVal} {e : List String}
    (h : parseExtraction raw = .error e) :
    normalizeExtraction raw = .error (String.intercalate " | " e) := by
  unfold normalizeExtraction
  rw [h]

/- ---------------------------------------------------------------------
Shared concrete sample used by the witnesses: a well-formed raw payload
and its normalized form.
--------------------------------------------------------------------- -/

/-- A concrete raw payload exercising coercion, totals and remarks. -/
def sampleRaw : JSVal :=
  .obj [("fullText", .str "doc"),
        ("items", .arr [.obj [("description", .str "Widget"),
                              ("quantity", .str "2"),
                              ("unitPrice", .str "3.50")]]),
        ("totals", .obj [("subtotal", .str "7")]),
        ("remarks", .str " ok ")]

/-- The normalized form of `sampleRaw`. -/
def sampleDoc : QuoteExtraction :=
  ⟨"doc",
   ⟨none, none, none, none, none, none, none, none, none, none⟩,
   [⟨none, "Widget", some (.finite (mkRat 2 1)), some (.finite (mkRat 35 10)),
     some (.finite (mkRat 7 1)), none⟩],
   ⟨some (.finite (mkRat 7 1)), none, none, none, none⟩,
   some "ok"⟩

example : normalizeExtraction sampleRaw = .ok sampleDoc := by rfl

/- ---------------------------------------------------------------------
Claim theorems.
--------------------------------------------------------------------- -/

/-- The raw payload of the repository's own test `quoteSchema.test.ts`
reduced to its defaulting core: an empty metadata object. -/
def c1Input : JSVal :=
  .obj [("fullText", .str "Example document contents"),
        ("metadata", .obj []),
        ("items", .arr [.obj [("description", .str "Widget")]])]

/-- What `normalizeExtraction` actually returns for `c1Input`. -/
def c1Doc : QuoteExtraction :=
  ⟨"Example document contents",
   ⟨none, none, none, none, none, none, none, none, none, none⟩,
   [⟨none, "Widget", none, none, none, none⟩],
   ⟨none, none, none, none, none⟩,
   none⟩

/-- An RFQ-variant document with empty metadata, fed to
`prepareQuoteForDocument`. -/
def c1Rfq : RfqExtraction :=
  ⟨"Example document contents",
   ⟨none, none, none, none, none, none, none, none, none, none, none, none, none⟩,
   [⟨none, "Widget", none, none, none⟩],
   none⟩

/-- What `prepareQuoteForDocument` actually returns for `c1Rfq`. -/
def c1RfqPrepared : RfqExtraction :=
  ⟨"Example document contents",
   ⟨some ⟨some "", some "", some "", some "", some "", some "", some ""⟩,
    some "", some "", some "", some "",
    some "Export seaworthy", some "Your best", some "EUR/USD", some "To be agreed",
    some "12/18 months", some "TBA", some "", some ""⟩,
   [⟨some "", "Widget", none, some "", some ""⟩],
   some ""⟩

/-- C1: the claim says `normalize` populates every recognized-default
metadata key on an empty metadata object while leaving non-default keys
absent.  The code violates its own test `quoteSchema.test.ts` here:
`normalizeExtraction` applies no metadata defaults at all (currency,
payment terms and delivery terms stay absent), and the defaulting that
does exist lives in `prepareQuoteForDocument`, which fills the six
recognized business terms but maps the non-default keys (identifiers,
dates, subject) to the empty string instead of leaving them absent. -/
theorem claim_C1 :
    normalizeExtraction c1Input = .ok c1Doc
    ∧ c1Doc.metadata.currency = none
    ∧ c1Doc.metadata.paymentTerms = none
    ∧ c1Doc.metadata.deliveryTerms = none
    ∧ prepareQuoteForDocument c1Rfq = c1RfqPrepared
    ∧ c1RfqPrepared.metadata.packing = some "Export seaworthy"
    ∧ c1RfqPrepared.metadata.deliveryTerms = some "Your best"
    ∧ c1RfqPrepared.metadata.currency = some "EUR/USD"
    ∧ c1RfqPrepared.metadata.paymentTerms = some "To be agreed"
    ∧ c1RfqPrepared.metadata.guarantees = some "12/18 months"
    ∧ c1RfqPrepared.metadata.origin = some "TBA"
    ∧ c1RfqPrepared.metadata.subject = some ""
    ∧ c1RfqPrepared.metadata.rfqNumber = some ""
    ∧ c1RfqPrepared.metadata.issueDate = some ""
    ∧ c1RfqPrepared.metadata.dueDate = some "" :=
  ⟨rfl, rfl, rfl, rfl, rfl, rfl, rfl, rfl, rfl, rfl, rfl, rfl, rfl, rfl, rfl⟩

/-- C2: an input whose `items` field is the empty array never parses (the
`min(1)` check fails), and a successfully normalized document never has an
empty item list. -/
theorem claim_C2 :
    (∀ fs : List (String × JSVal), lookupField fs "items" = .arr [] →
       ∃ msg, normalizeExtraction (.obj fs) = .error msg)
    ∧ (∀ (raw : JSVal) (d : QuoteExtraction), normalizeExtraction raw = .ok d →
       d.items ≠ []) := by
  constructor
  · intro fs hfs
    have hitems : parseItems (lookupField fs "items") =
        .error ["Debes incluir al menos un item"] := by
      rw [hfs]; rfl
    obtain ⟨e, he⟩ := parseExtraction_error_items hitems
    exact ⟨String.intercalate " | " e, normalizeExtraction_error_of_parse he⟩
  · intro raw d h
    exact (normalizeExtraction_ok_norm h).2.2.2.1

/-- Witness for C2 at a concrete empty-items payload and at `sampleRaw`. -/
theorem claim_C2_witness :
    (∃ msg, normalizeExtraction
        (.obj [("fullText", .str "doc"), ("items", .arr [])]) = .error msg)
    ∧ sampleDoc.items ≠ [] :=
  ⟨claim_C2.1 [("fullText", .str "doc"), ("items", .arr [])] rfl,
   claim_C2.2 sampleRaw sampleDoc rfl⟩

/-- C3: `normalizeNumber` resolves the locale-formatted sample strings to
the intended magnitudes, and `"abc"`, `null` and a missing value to
absent. -/
theorem claim_C3 :
    normalizeNumber (.str "1.234") = some (.finite (1234 / 1000))
    ∧ normalizeNumber (.str "1.234,56") = some (.finite (123456 / 100))
    ∧ normalizeNumber (.str "2,500.75") = some (.finite (250075 / 100))
    ∧ normalizeNumber (.str "$1,299.95") = some (.finite (129995 / 100))
    ∧ normalizeNumber (.str "abc") = none
    ∧ normalizeNumber .null = none
    ∧ normalizeNumber .undef = none := by
  have e1 : (1234 / 1000 : ℚ) = mkRat 1234 1000 := by
    rw [Rat.mkRat_eq_divInt, Rat.divInt_eq_div]; norm_num
  have e2 : (123456 / 100 : ℚ) = mkRat 123456 100 := by
    rw [Rat.mkRat_eq_divInt, Rat.divInt_eq_div]; norm_num
  have e3 : (250075 / 100 : ℚ) = mkRat 250075 100 := by
    rw [Rat.mkRat_eq_divInt, Rat.divInt_eq_div]; norm_num
  have e4 : (129995 / 100 : ℚ) = mkRat 129995 100 := by
    rw [Rat.mkRat_eq_divInt, Rat.divInt_eq_div]; norm_num
  refine ⟨?_, ?_, ?_, ?_, ?_, ?_, ?_⟩
  · rw [e1]; decide
  · rw [e2]; decide
  · rw [e3]; decide
  · rw [e4]; decide
  · decide
  · decide
  · decide

/-- A payload whose item multiplies two huge finite factors. -/
def c4Raw : JSVal :=
  .obj [("fullText", .str "doc"),
        ("items", .arr [.obj [("description", .str "x"),
          ("quantity", .num (.finite (mkRat ((10 ^ 200 : ℕ) : ℤ) 1))),
          ("unitPrice", .num (.finite (mkRat ((10 ^ 200 : ℕ) : ℤ) 1)))]])]

/-- What `normalizeExtraction` returns for `c4Raw`: both factors are kept
as finite numbers, but the filled `totalPrice` is `Infinity` — the double
product `1e200 * 1e200` overflows, and `Number(Infinity.toFixed(2))` is
still `Infinity`. -/
def c4Doc : QuoteExtraction :=
  ⟨"doc",
   ⟨none, none, none, none, none, none, none, none, none, none⟩,
   [⟨none, "x", some (.finite (mkRat ((10 ^ 200 : ℕ) : ℤ) 1)),
     some (.finite (mkRat ((10 ^ 200 : ℕ) : ℤ) 1)), some JSNum.inf, none⟩],
   ⟨none, none, none, none, none⟩,
   none⟩

/-- C4 counterexample: the claim says every numeric field of a normalized
document is finite or absent, but an input whose item has
`quantity = unitPrice = 1e200` and no `totalPrice` passes validation and
`fillMissingTotals` stores the overflowed product: the normalized document
carries `totalPrice = Infinity`, a non-finite numeric field. -/
theorem claim_C4_counterexample :
    normalizeExtraction c4Raw = .ok c4Doc
    ∧ c4Doc.items.map QuoteItem.totalPrice = [some JSNum.inf]
    ∧ JSNum.inf.isFinite = false :=
  ⟨rfl, rfl, rfl⟩

/-- C4 amended: `normalizeNumber` itself is total and only ever yields a
finite number or absent, and in a normalized document every coerced
numeric field — item quantities and unit prices, and all totals keys — is
finite or absent; `totalPrice` is the one exception: it is never `NaN`,
but it can be non-finite, and only when `fillMissingTotals` computed it as
the overflowing product of the item's own (finite) `quantity` and
`unitPrice`. -/
theorem claim_C4_amended :
    (∀ (v : JSVal) (n : JSNum), normalizeNumber v = some n → ∃ q, n = JSNum.finite q)
    ∧ (∀ (raw : JSVal) (d : QuoteExtraction), normalizeExtraction raw = .ok d →
        (∀ it ∈ d.items,
          finiteOpt it.quantity ∧ finiteOpt it.unitPrice ∧
          ∀ n, it.totalPrice = some n →
            n ≠ JSNum.nan ∧
            (n.isFinite = false →
              ∃ a b, it.quantity = some (.finite a) ∧ it.unitPrice = some (.finite b)
                ∧ n = JSNum.mul (.finite a) (.finite b)))
        ∧ finiteOpt d.totals.subtotal ∧ finiteOpt d.totals.taxes
        ∧ finiteOpt d.totals.shipping ∧ finiteOpt d.totals.discount
        ∧ finiteOpt d.totals.total) := by
  have hfin : ∀ {o : Option JSNum}, roundedOpt o → finiteOpt o := by
    intro o ho n hn
    obtain ⟨r, rfl, _⟩ := ho n hn
    exact ⟨r, rfl⟩
  constructor
  · intro v n h
    exact normalizeNumber_finite h
  · intro raw d h
    obtain ⟨_, _, hitems, _, htot, _⟩ := normalizeExtraction_ok_norm h
    refine ⟨?_, hfin htot.1, hfin htot.2.1, hfin htot.2.2.1, hfin htot.2.2.2.1,
      hfin htot.2.2.2.2⟩
    intro it hit
    obtain ⟨-, hq, hu, -, -, hshape⟩ := hitems it hit
    refine ⟨hq, hu, ?_⟩
    intro n hn
    rcases hshape n hn with ⟨x, rfl⟩ | ⟨a, b, hqe, hue, hmul, -⟩
    · exact ⟨by simp, fun hf => absurd hf (by simp [JSNum.isFinite])⟩
    · subst hmul
      refine ⟨?_, fun _ => ⟨a, b, hqe, hue, rfl⟩⟩
      rcases JSNum.mul_cases a b with hc | hc | hc <;> rw [hc] <;> simp

/-- Witness for the amended C4 at the string `"2,500.75"`, at `sampleRaw`
(all fields finite) and at the overflow document `c4Doc`. -/
theorem claim_C4_amended_witness :
    (∃ q, JSNum.finite (mkRat 250075 100) = JSNum.finite q)
    ∧ ((∀ it ∈ sampleDoc.items,
          finiteOpt it.quantity ∧ finiteOpt it.unitPrice ∧
          ∀ n, it.totalPrice = some n →
            n ≠ JSNum.nan ∧
            (n.isFinite = false →
              ∃ a b, it.quantity = some (.finite a) ∧ it.unitPrice = some (.finite b)
                ∧ n = JSNum.mul (.finite a) (.finite b)))
        ∧ finiteOpt sampleDoc.totals.subtotal ∧ finiteOpt sampleDoc.totals.taxes
        ∧ finiteOpt sampleDoc.totals.shipping ∧ finiteOpt sampleDoc.totals.discount
        ∧ finiteOpt sampleDoc.totals.total)
    ∧ (∀ it ∈ c4Doc.items,
          finiteOpt it.quantity ∧ finiteOpt it.unitPrice ∧
          ∀ n, it.totalPrice = some n →
            n ≠ JSNum.nan ∧
            (n.isFinite = false →
              ∃ a b, it.quantity = some (.finite a) ∧ it.unitPrice = some (.finite b)
                ∧ n = JSNum.mul (.finite a) (.finite b))) :=
  ⟨claim_C4_amended.1 (.str "2,500.75") (.finite (mkRat 250075 100)) (by decide),
   claim_C4_amended.2 sampleRaw sampleDoc rfl,
   (claim_C4_amended.2 c4Raw c4Doc rfl).1⟩

/-- C5: normalization is idempotent up to serialization: re-normalizing
the `JSON.stringify`/`JSON.parse` image of a normalized document returns
the same document. -/
theorem claim_C5 (x : JSVal) (d : QuoteExtraction)
    (h : normalizeExtraction x = .ok d) :
    normalizeExtraction (serializeExtraction d) = .ok d :=
  normalizeExtraction_roundtrip (normalizeExtraction_ok_norm h)

/-- Witness for C5 at `sampleRaw`. -/
theorem claim_C5_witness :
    normalizeExtraction (serializeExtraction sampleDoc) = .ok sampleDoc :=
  claim_C5 sampleRaw sampleDoc rfl

/-- C6: a failing `normalizeExtraction` always throws the `" | "`-join of
every collected issue message, and the failure input of the spec produces
the aggregation of both violated invariants — the too-short `fullText` and
the empty item list (the latter message, "you must include at least one
item", speaks to both the missing item and the empty list) — not only the
first one. -/
theorem claim_C6 :
    (∀ (raw : JSVal) (issues : List String), parseExtraction raw = .error issues →
       normalizeExtraction raw = .error (String.intercalate " | " issues))
    ∧ normalizeExtraction
        (.obj [("fullText", .str ""), ("metadata", .obj []), ("items", .arr [])])
      = .error (String.intercalate " | "
          ["String must contain at least 1 character(s)",
           "Debes incluir al menos un item"]) :=
  ⟨fun _ _ h => normalizeExtraction_error_of_parse h, rfl⟩

/-- Witness for C6's aggregation statement at the spec's failure input. -/
theorem claim_C6_witness :
    normalizeExtraction
      (.obj [("fullText", .str ""), ("metadata", .obj []), ("items", .arr [])])
    = .error (String.intercalate " | "
        ["String must contain at least 1 character(s)",
         "Debes incluir al menos un item"]) :=
  claim_C6.1 (.obj [("fullText", .str ""), ("metadata", .obj []), ("items", .arr [])])
    ["String must contain at least 1 character(s)", "Debes incluir al menos un item"] rfl

/-- A payload whose `fullText` is whitespace-only. -/
def c7Input : JSVal :=
  .obj [("fullText", .str "   "),
        ("items", .arr [.obj [("description", .str "x")]])]

/-- What `normalizeExtraction` returns for `c7Input`: it succeeds, keeping
the whitespace-only `fullText`. -/
def c7Doc : QuoteExtraction :=
  ⟨"   ",
   ⟨none, none, none, none, none, none, none, none, none, none⟩,
   [⟨none, "x", none, none, none, none⟩],
   ⟨none, none, none, none, none⟩,
   none⟩

/-- C7 counterexample: the claim says a whitespace-only (blank) `fullText`
must fail structural validation, but `z.string().min(1)` does not trim:
`"   "` has length 3 and is accepted unchanged. -/
theorem claim_C7_counterexample :
    normalizeExtraction c7Input = .ok c7Doc
    ∧ c7Doc.fullText = "   "
    ∧ jsTrim c7Doc.fullText = "" :=
  ⟨rfl, rfl, rfl⟩

/-- C7 amended: a missing, `null` or empty-string `fullText` fails with a
validation error, and a normalized document's `fullText` always has
length ≥ 1 (whitespace-only text, however, is accepted verbatim). -/
theorem claim_C7_amended :
    (∀ fs : List (String × JSVal),
       (lookupField fs "fullText" = .undef ∨ lookupField fs "fullText" = .null ∨
        lookupField fs "fullText" = .str "") →
       ∃ msg, normalizeExtraction (.obj fs) = .error msg)
    ∧ (∀ (raw : JSVal) (d : QuoteExtraction), normalizeExtraction raw = .ok d →
        0 < d.fullText.length) := by
  constructor
  · intro fs hfs
    have herr : ∃ e, parseRequiredString "String must contain at least 1 character(s)"
        (lookupField fs "fullText") = .error e := by
      rcases hfs with h | h | h <;> rw [h]
      · exact ⟨["Required"], rfl⟩
      · exact ⟨["Expected string, received null"], rfl⟩
      · exact ⟨["String must contain at least 1 character(s)"], rfl⟩
    obtain ⟨e, he⟩ := herr
    obtain ⟨e', he'⟩ := parseExtraction_error_fullText he
    exact ⟨String.intercalate " | " e', normalizeExtraction_error_of_parse he'⟩
  · intro raw d h
    exact (normalizeExtraction_ok_norm h).1

/-- Witness for the amended C7 at a concrete empty-`fullText` payload and
at `sampleRaw`. -/
theorem claim_C7_amended_witness :
    (∃ msg, normalizeExtraction
        (.obj [("fullText", .str ""), ("items", .arr [.obj [("description", .str "x")]])])
      = .error msg)
    ∧ 0 < sampleDoc.fullText.length :=
  ⟨claim_C7_amended.1 [("fullText", .str ""), ("items", .arr [.obj [("description", .str "x")]])]
      (Or.inr (Or.inr rfl)),
   claim_C7_amended.2 sampleRaw sampleDoc rfl⟩

/-- A payload whose item carries a whitespace-only `itemNumber`. -/
def c8Input : JSVal :=
  .obj [("fullText", .str "doc"),
        ("items", .arr [.obj [("itemNumber", .str "  "), ("description", .str "x")]])]

/-- What `normalizeExtraction` returns for `c8Input`: the whitespace-only
`itemNumber` survives untrimmed. -/
def c8Doc : QuoteExtraction :=
  ⟨"doc",
   ⟨none, none, none, none, none, none, none, none, none, none⟩,
   [⟨some "  ", "x", none, none, none, none⟩],
   ⟨none, none, none, none, none⟩,
   none⟩

/-- C8 counterexample: the claim covers `itemNumber` among the optional
text fields that must be trimmed-or-absent, but the schema passes
`itemNumber` through verbatim: a whitespace-only string is stored
unchanged in the normalized document. -/
theorem claim_C8_counterexample :
    normalizeExtraction c8Input = .ok c8Doc
    ∧ c8Doc.items = [⟨some "  ", "x", none, none, none, none⟩]
    ∧ jsTrim "  " = "" :=
  ⟨rfl, rfl, rfl⟩

/-- C8 amended: every optional text field that goes through
`normalizeText` (`optionalString`) — notes, remarks, the metadata text
fields and both contact blocks — is a non-empty trimmed string or absent;
`itemNumber` alone is excluded because the schema keeps it verbatim.  The
two `normalizeText` evaluations of the claim hold. -/
theorem claim_C8_amended :
    (∀ (raw : JSVal) (d : QuoteExtraction), normalizeExtraction raw = .ok d →
       normalizedOpt d.remarks
       ∧ (∀ it ∈ d.items, normalizedOpt it.notes)
       ∧ contactOptNorm d.metadata.supplier
       ∧ contactOptNorm d.metadata.customer
       ∧ normalizedOpt d.metadata.quoteNumber
       ∧ normalizedOpt d.metadata.issueDate
       ∧ normalizedOpt d.metadata.expirationDate
       ∧ normalizedOpt d.metadata.currency
       ∧ normalizedOpt d.metadata.paymentTerms
       ∧ normalizedOpt d.metadata.deliveryTerms
       ∧ normalizedOpt d.metadata.projectName
       ∧ normalizedOpt d.metadata.additionalNotes)
    ∧ normalizeText "   " = none
    ∧ normalizeText "  ACME  " = some "ACME" := by
  refine ⟨?_, by decide, by decide⟩
  intro raw d h
  obtain ⟨_, hmeta, hitems, _, _, hrem⟩ := normalizeExtraction_ok_norm h
  obtain ⟨h1, h2, h3, h4, h5, h6, h7, h8, h9, h10⟩ := hmeta
  exact ⟨hrem, fun it hit => (hitems it hit).2.2.2.1,
    h1, h2, h3, h4, h5, h6, h7, h8, h9, h10⟩

/-- Witness for the amended C8 at `sampleRaw` (its remarks field is a
trimmed non-empty string). -/
theorem claim_C8_amended_witness :
    normalizedOpt sampleDoc.remarks
    ∧ (∀ it ∈ sampleDoc.items, normalizedOpt it.notes)
    ∧ contactOptNorm sampleDoc.metadata.supplier
    ∧ contactOptNorm sampleDoc.metadata.customer
    ∧ normalizedOpt sampleDoc.metadata.quoteNumber
    ∧ normalizedOpt sampleDoc.metadata.issueDate
    ∧ normalizedOpt sampleDoc.metadata.expirationDate
    ∧ normalizedOpt sampleDoc.metadata.currency
    ∧ normalizedOpt sampleDoc.metadata.paymentTerms
    ∧ normalizedOpt sampleDoc.metadata.deliveryTerms
    ∧ normalizedOpt sampleDoc.metadata.projectName
    ∧ normalizedOpt sampleDoc.metadata.additionalNotes :=
  (claim_C8_amended.1) sampleRaw sampleDoc rfl

/-- C9: in a normalized document, an item whose coerced `totalPrice` is
absent while both `quantity` and `unitPrice` are present numbers gets
`totalPrice := quantity * unitPrice` rounded to two decimal places; a
supplied (or factor-less) `totalPrice` is kept unchanged; and
`normalizeExtraction` produces its items exactly by mapping
`fillMissingTotals` over the parsed items. -/
theorem claim_C9 :
    (∀ (it : QuoteItem) (a b : ℚ),
       it.totalPrice = none → it.quantity = some (.finite a) →
       it.unitPrice = some (.finite b) →
       (fillMissingTotals it).totalPrice
         = some ((JSNum.mul (.finite a) (.finite b)).toFixed2Num))
    ∧ (∀ a b : ℚ, -overflowThreshold < a * b → a * b < overflowThreshold →
       (JSNum.mul (.finite a) (.finite b)).toFixed2Num
         = JSNum.finite (toFixed2 (a * b)))
    ∧ (∀ it : QuoteItem,
       it.totalPrice ≠ none ∨ it.quantity = none ∨ it.unitPrice = none →
       (fillMissingTotals it).totalPrice = it.totalPrice)
    ∧ (∀ (raw : JSVal) (d : QuoteExtraction), normalizeExtraction raw = .ok d →
       ∃ pre, parseExtraction raw = .ok pre ∧
         d.items = pre.items.map fillMissingTotals) := by
  refine ⟨?_, ?_, ?_, ?_⟩
  · intro it a b ht hq hu
    obtain ⟨inum, desc, qty, up, tp, nts⟩ := it
    obtain rfl : tp = none := ht
    obtain rfl : qty = some (.finite a) := hq
    obtain rfl : up = some (.finite b) := hu
    rfl
  · intro a b h₁ h₂
    rw [JSNum.mul_finite a b h₁ h₂]
    rfl
  · intro it h
    obtain ⟨inum, desc, qty, up, tp, nts⟩ := it
    rcases h with ht | hq | hu
    · cases htp : tp with
      | none => exact absurd htp ht
      | some n => subst htp; rfl
    · obtain rfl : qty = none := hq
      cases tp <;> rfl
    · obtain rfl : up = none := hu
      cases tp <;> cases qty <;> rfl
  · intro raw d h
    obtain ⟨parsed, hp, rfl⟩ := normalizeExtraction_ok_inv h
    exact ⟨parsed, hp, rfl⟩

/-- A parsed item with present factors and a missing total. -/
def c9Item : QuoteItem :=
  ⟨none, "w", some (.finite (mkRat 2 1)), some (.finite (mkRat 7 2)), none, none⟩

/-- A parsed item with a supplied total. -/
def c9ItemSupplied : QuoteItem :=
  ⟨none, "w", some (.finite (mkRat 1 1)), some (.finite (mkRat 1 1)),
   some (.finite (mkRat 5 1)), none⟩

/-- Witness for C9: the missing total is filled with the program's
product-then-round, that product is in range so it equals the rounded
exact product, the supplied total is kept, and `sampleRaw`'s items arise
from `fillMissingTotals`. -/
theorem claim_C9_witness :
    ((fillMissingTotals c9Item).totalPrice
      = some ((JSNum.mul (.finite (mkRat 2 1)) (.finite (mkRat 7 2))).toFixed2Num))
    ∧ ((JSNum.mul (.finite (mkRat 2 1)) (.finite (mkRat 7 2))).toFixed2Num
      = JSNum.finite (toFixed2 (mkRat 2 1 * mkRat 7 2)))
    ∧ (fillMissingTotals c9ItemSupplied).totalPrice = c9ItemSupplied.totalPrice
    ∧ ∃ pre, parseExtraction sampleRaw = .ok pre ∧
        sampleDoc.items = pre.items.map fillMissingTotals := by
  have e2 : (mkRat 2 1 : ℚ) = 2 := by
    rw [Rat.mkRat_eq_divInt, Rat.divInt_eq_div]; norm_num
  have e7 : (mkRat 7 2 : ℚ) = 7 / 2 := by
    rw [Rat.mkRat_eq_divInt, Rat.divInt_eq_div]; norm_num
  have hprod : (mkRat 2 1 : ℚ) * mkRat 7 2 = 7 := by
    rw [e2, e7]; norm_num
  have hth : (0 : ℚ) < overflowThreshold := by
    rw [overflowThreshold_eq]
    have h : (2 : ℚ) ^ 970 < 2 ^ 1024 := by
      apply pow_lt_pow_right₀ <;> norm_num
    linarith
  have hhi : (mkRat 2 1 : ℚ) * mkRat 7 2 < overflowThreshold := by
    rw [hprod, overflowThreshold_eq]
    have h : (7 : ℚ) + 2 ^ 970 < 2 ^ 1024 := by
      have h1 : (2 : ℚ) ^ 970 + 2 ^ 970 ≤ 2 ^ 1024 := by
        have : (2 : ℚ) ^ 971 ≤ 2 ^ 1024 := by
          apply pow_le_pow_right₀ <;> norm_num
        calc (2 : ℚ) ^ 970 + 2 ^ 970 = 2 ^ 971 := by ring
          _ ≤ 2 ^ 1024 := this
      have h2 : (7 : ℚ) < 2 ^ 970 := by
        calc (7 : ℚ) < 2 ^ 3 := by norm_num
          _ ≤ 2 ^ 970 := by apply pow_le_pow_right₀ <;> norm_num
      linarith
    linarith
  have hlo : -overflowThreshold < (mkRat 2 1 : ℚ) * mkRat 7 2 := by
    rw [hprod]
    linarith
  exact ⟨claim_C9.1 c9Item (mkRat 2 1) (mkRat 7 2) rfl rfl rfl,
    claim_C9.2.1 (mkRat 2 1) (mkRat 7 2) hlo hhi,
    claim_C9.2.2.1 c9ItemSupplied (Or.inl (by decide)),
    claim_C9.2.2.2 sampleRaw sampleDoc rfl⟩

/-- C10: in every normalized document's totals record, each key is either
absent (when the coerced input was absent or non-finite) or a finite
number already rounded to two decimal places — never `null`-like and never
`NaN`; `normTotField` makes the per-key behaviour explicit. -/
theorem claim_C10 :
    normTotField none = none
    ∧ (∀ x : ℚ, normTotField (some (.finite x)) = some (.finite (toFixed2 x)))
    ∧ (∀ n : JSNum, n.isFinite = false → normTotField (some n) = none)
    ∧ (∀ (raw : JSVal) (d : QuoteExtraction), normalizeExtraction raw = .ok d →
        roundedOpt d.totals.subtotal ∧ roundedOpt d.totals.taxes ∧
        roundedOpt d.totals.shipping ∧ roundedOpt d.totals.discount ∧
        roundedOpt d.totals.total) := by
  refine ⟨rfl, fun x => rfl, ?_, ?_⟩
  · intro n hn
    cases n with
    | finite q => simp [JSNum.isFinite] at hn
    | nan => rfl
    | inf => rfl
    | ninf => rfl
  · intro raw d h
    exact (normalizeExtraction_ok_norm h).2.2.2.2.1

/-- Witness for C10 at `NaN` and at `sampleRaw`. -/
theorem claim_C10_witness :
    normTotField (some JSNum.nan) = none
    ∧ (roundedOpt sampleDoc.totals.subtotal ∧ roundedOpt sampleDoc.totals.taxes ∧
       roundedOpt sampleDoc.totals.shipping ∧ roundedOpt sampleDoc.totals.discount ∧
       roundedOpt sampleDoc.totals.total) :=
  ⟨claim_C10.2.2.1 JSNum.nan rfl,
   claim_C10.2.2.2 sampleRaw sampleDoc rfl⟩
